import Mathlib

/-!
Verification of the user-space M:N scheduler core (`src/pkg/runtime/proc.c`).

The development shallowly embeds the scheduler state and the operations the
claims talk about.  Machine integers are modelled as `Nat` with explicit
reduction mod `2^32` where the C code performs `uint32` arithmetic
(`runtime·xadd`, `runtime·cas` loops).  Pointer-level operations that do not
affect the scheduler bookkeeping (context saves, stack extents, memory
allocation addresses) are abstracted away; every such omission is noted next
to the definition that elides it.  Because the model is sequential, each CAS
loop is modelled by its first (successful) iteration, which is the
loop-free meaning of the code when no interference occurs.
-/

namespace Proc

/-! ### The atomic scheduling word (proc.c lines 106..125)

    [15 bits] mcpu, [15 bits] mcpumax, [1 bit] waitstop, [1 bit] gwaiting. -/

def mcpuWidth : Nat := 15
def mcpuMask : Nat := (1 <<< mcpuWidth) - 1
def mcpuShift : Nat := 0
def mcpumaxShift : Nat := mcpuShift + mcpuWidth
def waitstopShift : Nat := mcpumaxShift + mcpuWidth
def gwaitingShift : Nat := waitstopShift + 1

/-- `maxgomaxprocs = mcpuMask - 10`: a few high values are reserved so that an
accidental decrement beyond zero can be detected. -/
def maxgomaxprocs : Nat := mcpuMask - 10

/-- `#define atomic_mcpu(v) (((v)>>mcpuShift)&mcpuMask)` -/
def atomic_mcpu (v : Nat) : Nat := (v >>> mcpuShift) &&& mcpuMask

/-- `#define atomic_mcpumax(v) (((v)>>mcpumaxShift)&mcpuMask)` -/
def atomic_mcpumax (v : Nat) : Nat := (v >>> mcpumaxShift) &&& mcpuMask

/-- `#define atomic_waitstop(v) (((v)>>waitstopShift)&1)` -/
def atomic_waitstop (v : Nat) : Nat := (v >>> waitstopShift) &&& 1

/-- `#define atomic_gwaiting(v) (((v)>>gwaitingShift)&1)` -/
def atomic_gwaiting (v : Nat) : Nat := (v >>> gwaitingShift) &&& 1

/-- Truncation to a `uint32` value (for unsigned overflow in `w = v + delta`). -/
def w32 (n : Nat) : Nat := n % 2 ^ 32

/-- The `uint32` value of a (possibly negative) C `int32`. -/
def u32 (i : Int) : Nat := (i % (2 ^ 32 : Int)).toNat

/-- `runtime·xadd(&sched.atomic, delta)`: two's-complement add on the 32-bit
word, returning the new value (the C helper returns the updated word). -/
def xadd (v : Nat) (delta : Int) : Nat := ((v + delta) % (2 ^ 32 : Int)).toNat

/-- `canaddmcpu` (proc.c 329..341): try to increment mcpu; succeeds iff
`mcpu < mcpumax`.  Sequentially the CAS succeeds on the first attempt, so the
function returns the success flag together with the resulting atomic word. -/
def canaddmcpu (v : Nat) : Bool × Nat :=
  if atomic_mcpumax v ≤ atomic_mcpu v then (false, v)
  else (true, w32 (v + (1 <<< mcpuShift)))

/-- `setmcpumax(n)` (proc.c 150..163): replace the mcpumax field of the word.
The C body is `w = v; w &= ~(mcpuMask<<mcpumaxShift); w |= n<<mcpumaxShift`
on `uint32`s.  Arithmetically on the fields of `v` (for `v < 2^32`): the mask
clears bits 15..29 leaving bits 0..14 (`v % 2^15`) and bits 30..31
(`v / 2^30 * 2^30`); the OR writes `n`'s low 15 bits into the empty field
and ORs any higher bits of `n<<15` (mod `2^32`), i.e. `n / 2^15 % 4`, over
the two flag bits. -/
def setmcpumax (v n : Nat) : Nat :=
  v % 2 ^ 15 + n % 2 ^ 15 * 2 ^ 15 + (v / 2 ^ 30 ||| n / 2 ^ 15 % 4) * 2 ^ 30

/-! Bridge lemmas: the bit-field accessors in div/mod form. -/

theorem mcpuMask_eq : mcpuMask = 2 ^ 15 - 1 := by
  show (1 <<< 15) - 1 = 2 ^ 15 - 1
  rw [Nat.shiftLeft_eq, one_mul]

theorem atomic_mcpu_eq (v : Nat) : atomic_mcpu v = v % 2 ^ 15 := by
  show (v >>> mcpuShift) &&& mcpuMask = v % 2 ^ 15
  rw [show mcpuShift = 0 from rfl, mcpuMask_eq, Nat.shiftRight_zero,
    Nat.and_pow_two_sub_one_eq_mod]

theorem atomic_mcpumax_eq (v : Nat) : atomic_mcpumax v = v / 2 ^ 15 % 2 ^ 15 := by
  show (v >>> mcpumaxShift) &&& mcpuMask = v / 2 ^ 15 % 2 ^ 15
  rw [show mcpumaxShift = 15 from rfl, mcpuMask_eq, Nat.shiftRight_eq_div_pow,
    Nat.and_pow_two_sub_one_eq_mod]

theorem atomic_waitstop_eq (v : Nat) : atomic_waitstop v = v / 2 ^ 30 % 2 := by
  show (v >>> waitstopShift) &&& 1 = v / 2 ^ 30 % 2
  rw [show waitstopShift = 30 from rfl, Nat.shiftRight_eq_div_pow, Nat.and_one_is_mod]

theorem atomic_gwaiting_eq (v : Nat) : atomic_gwaiting v = v / 2 ^ 31 % 2 := by
  show (v >>> gwaitingShift) &&& 1 = v / 2 ^ 31 % 2
  rw [show gwaitingShift = 31 from rfl, Nat.shiftRight_eq_div_pow, Nat.and_one_is_mod]

theorem maxgomaxprocs_eq : maxgomaxprocs = 2 ^ 15 - 11 := by
  simp [maxgomaxprocs, mcpuMask, mcpuWidth, Nat.shiftLeft_eq]

/-- C4: for every value of the atomic word, `canaddmcpu` succeeds and
increments the mcpu field by exactly one — leaving mcpumax, waitstop and
gwaiting unchanged — when `mcpu < mcpumax` at the decision point, and fails
leaving the word unchanged when `mcpu ≥ mcpumax`. -/
theorem canaddmcpu_spec (v : Nat) (hv : v < 2 ^ 32) :
    (atomic_mcpu v < atomic_mcpumax v →
      canaddmcpu v = (true, v + 1) ∧
      atomic_mcpu (v + 1) = atomic_mcpu v + 1 ∧
      atomic_mcpumax (v + 1) = atomic_mcpumax v ∧
      atomic_waitstop (v + 1) = atomic_waitstop v ∧
      atomic_gwaiting (v + 1) = atomic_gwaiting v) ∧
    (atomic_mcpumax v ≤ atomic_mcpu v → canaddmcpu v = (false, v)) := by
  constructor
  · intro h
    have hfield : v % 2 ^ 15 < 2 ^ 15 - 1 := by
      have h1 := atomic_mcpu_eq v
      have h2 := atomic_mcpumax_eq v
      have h3 : v / 2 ^ 15 % 2 ^ 15 < 2 ^ 15 := Nat.mod_lt _ (by norm_num)
      omega
    have hcond : ¬ atomic_mcpumax v ≤ atomic_mcpu v := by omega
    refine ⟨?_, ?_, ?_, ?_, ?_⟩
    · simp only [canaddmcpu, if_neg hcond, mcpuShift, Nat.shiftLeft_eq, w32]
      have : v + 1 * 2 ^ 0 < 2 ^ 32 := by
        have := atomic_mcpu_eq v
        omega
      rw [Nat.mod_eq_of_lt this]
      norm_num
    · rw [atomic_mcpu_eq, atomic_mcpu_eq]; omega
    · rw [atomic_mcpumax_eq, atomic_mcpumax_eq]; omega
    · rw [atomic_waitstop_eq, atomic_waitstop_eq]; omega
    · rw [atomic_gwaiting_eq, atomic_gwaiting_eq]; omega
  · intro h
    simp only [canaddmcpu, if_pos h]

/-! Arithmetic facts about `xadd` at the deltas the scheduler uses. -/

/-- `xadd v (±1<<gwaitingShift)` toggles the gwaiting bit and leaves bits
0..30 unchanged (adding and subtracting `2^31` agree mod `2^32`). -/
theorem xadd_top_bit (v : Nat) (d : Int) (hv : v < 2 ^ 32)
    (hd : d = ((1 <<< gwaitingShift : Nat) : Int) ∨ d = -((1 <<< gwaitingShift : Nat) : Int)) :
    xadd v d = (if v < 2 ^ 31 then v + 2 ^ 31 else v - 2 ^ 31) ∧
    xadd v d < 2 ^ 32 := by
  have hbit : ((1 <<< gwaitingShift : Nat) : Int) = 2 ^ 31 := by
    rw [show gwaitingShift = 31 from rfl, Nat.shiftLeft_eq, one_mul]
    norm_num
  have hmain : xadd v d = (if v < 2 ^ 31 then v + 2 ^ 31 else v - 2 ^ 31) := by
    unfold xadd
    rcases hd with rfl | rfl <;> rw [hbit] <;> split <;> omega
  refine ⟨hmain, ?_⟩
  rw [hmain]; split <;> omega

/-- `xadd v (-(1<<mcpuShift))` with a positive mcpu field decrements the word
by one; the other fields are untouched. -/
theorem xadd_dec_mcpu (v : Nat) (hv : v < 2 ^ 32) (h : 0 < atomic_mcpu v) :
    xadd v (-((1 <<< mcpuShift : Nat) : Int)) = v - 1 ∧
    atomic_mcpu (v - 1) = atomic_mcpu v - 1 ∧
    atomic_mcpumax (v - 1) = atomic_mcpumax v ∧
    atomic_waitstop (v - 1) = atomic_waitstop v ∧
    atomic_gwaiting (v - 1) = atomic_gwaiting v := by
  rw [atomic_mcpu_eq] at h
  have hone : ((1 <<< mcpuShift : Nat) : Int) = 1 := by
    rw [show mcpuShift = 0 from rfl, Nat.shiftLeft_eq, one_mul]; norm_num
  refine ⟨?_, ?_, ?_, ?_, ?_⟩
  · unfold xadd; rw [hone]; omega
  · rw [atomic_mcpu_eq, atomic_mcpu_eq]; omega
  · rw [atomic_mcpumax_eq, atomic_mcpumax_eq]; omega
  · rw [atomic_waitstop_eq, atomic_waitstop_eq]; omega
  · rw [atomic_gwaiting_eq, atomic_gwaiting_eq]; omega

/-- `xadd v (1<<mcpuShift)` with `mcpu < 2^15 - 1` increments the word by one;
the other fields are untouched. -/
theorem xadd_inc_mcpu (v : Nat) (hv : v < 2 ^ 32) (h : atomic_mcpu v < 2 ^ 15 - 1) :
    xadd v ((1 <<< mcpuShift : Nat) : Int) = v + 1 ∧
    atomic_mcpu (v + 1) = atomic_mcpu v + 1 ∧
    atomic_mcpumax (v + 1) = atomic_mcpumax v ∧
    atomic_waitstop (v + 1) = atomic_waitstop v ∧
    atomic_gwaiting (v + 1) = atomic_gwaiting v := by
  rw [atomic_mcpu_eq] at h
  have hone : ((1 <<< mcpuShift : Nat) : Int) = 1 := by
    rw [show mcpuShift = 0 from rfl, Nat.shiftLeft_eq, one_mul]; norm_num
  refine ⟨?_, ?_, ?_, ?_, ?_⟩
  · unfold xadd; rw [hone]; omega
  · rw [atomic_mcpu_eq, atomic_mcpu_eq]; omega
  · rw [atomic_mcpumax_eq, atomic_mcpumax_eq]; omega
  · rw [atomic_waitstop_eq, atomic_waitstop_eq]; omega
  · rw [atomic_gwaiting_eq, atomic_gwaiting_eq]; omega

/-- `xadd v (-(1<<waitstopShift))` with the waitstop bit known to be 1 clears
it and leaves everything else unchanged. -/
theorem xadd_clear_waitstop (v : Nat) (hv : v < 2 ^ 32) (h : atomic_waitstop v = 1) :
    xadd v (-((1 <<< waitstopShift : Nat) : Int)) = v - 2 ^ 30 ∧
    atomic_mcpu (v - 2 ^ 30) = atomic_mcpu v ∧
    atomic_mcpumax (v - 2 ^ 30) = atomic_mcpumax v ∧
    atomic_waitstop (v - 2 ^ 30) = 0 ∧
    atomic_gwaiting (v - 2 ^ 30) = atomic_gwaiting v := by
  rw [atomic_waitstop_eq] at h
  have hbit : ((1 <<< waitstopShift : Nat) : Int) = 2 ^ 30 := by
    rw [show waitstopShift = 30 from rfl, Nat.shiftLeft_eq, one_mul]; norm_num
  refine ⟨?_, ?_, ?_, ?_, ?_⟩
  · unfold xadd; rw [hbit]; omega
  · rw [atomic_mcpu_eq, atomic_mcpu_eq]; omega
  · rw [atomic_mcpumax_eq, atomic_mcpumax_eq]; omega
  · rw [atomic_waitstop_eq]; omega
  · rw [atomic_gwaiting_eq, atomic_gwaiting_eq]; omega

/-- `setmcpumax` with a field-sized argument: the new word keeps mcpu,
waitstop and gwaiting and installs `n` as mcpumax. -/
theorem setmcpumax_small (v n : Nat) (hv : v < 2 ^ 32) (hn : n < 2 ^ 15) :
    atomic_mcpu (setmcpumax v n) = atomic_mcpu v ∧
    atomic_mcpumax (setmcpumax v n) = n ∧
    atomic_waitstop (setmcpumax v n) = atomic_waitstop v ∧
    atomic_gwaiting (setmcpumax v n) = atomic_gwaiting v ∧
    setmcpumax v n < 2 ^ 32 := by
  have hz : n / 2 ^ 15 % 4 = 0 := by omega
  have hset : setmcpumax v n = v % 2 ^ 15 + n * 2 ^ 15 + v / 2 ^ 30 * 2 ^ 30 := by
    unfold setmcpumax
    rw [hz, Nat.or_zero, Nat.mod_eq_of_lt hn]
  rw [hset]
  have h1 : v % 2 ^ 15 < 2 ^ 15 := Nat.mod_lt _ (by norm_num)
  have h2 : v / 2 ^ 30 < 4 := by omega
  refine ⟨?_, ?_, ?_, ?_, ?_⟩
  · rw [atomic_mcpu_eq, atomic_mcpu_eq]; omega
  · rw [atomic_mcpumax_eq]; omega
  · rw [atomic_waitstop_eq, atomic_waitstop_eq]; omega
  · rw [atomic_gwaiting_eq, atomic_gwaiting_eq]; omega
  · omega

/-- Witness for C4 at the concrete word `mcpu = 0, mcpumax = 1` (`v = 2^15`). -/
theorem canaddmcpu_spec_witness :
    (32768 : Nat) < 2 ^ 32 ∧
    ((atomic_mcpu 32768 < atomic_mcpumax 32768 →
      canaddmcpu 32768 = (true, 32768 + 1) ∧
      atomic_mcpu (32768 + 1) = atomic_mcpu 32768 + 1 ∧
      atomic_mcpumax (32768 + 1) = atomic_mcpumax 32768 ∧
      atomic_waitstop (32768 + 1) = atomic_waitstop 32768 ∧
      atomic_gwaiting (32768 + 1) = atomic_gwaiting 32768) ∧
    (atomic_mcpumax 32768 ≤ atomic_mcpu 32768 → canaddmcpu 32768 = (false, 32768))) :=
  ⟨by norm_num, canaddmcpu_spec 32768 (by norm_num)⟩

/-! ### Stack-segment sizing in `runtime·newstack` (proc.c 948..1033) -/

/-- `StackMin`, `StackExtra` and `StackSystem` are defined in `stack.h`, which
is not part of this repository snapshot; they are carried as parameters. -/
structure StackCfg where
  StackMin : Nat
  StackExtra : Nat
  StackSystem : Nat
  deriving DecidableEq

/-- The segment-allocation arithmetic of `runtime·newstack` (proc.c 972..995)
in the branch that allocates a new segment (i.e. everything except the
reflect-call in-place case).  Returns the allocated size together with the
value planted in the header field `top->free` (proc.c 994, 1005). -/
def newstackAlloc (cfg : StackCfg) (framesize0 argsize : Nat) : Nat × Nat :=
  -- reflectcall = framesize==1; if(reflectcall) framesize = 0;
  let framesize := if framesize0 = 1 then 0 else framesize0
  -- framesize += argsize;
  let framesize := framesize + argsize
  -- framesize += StackExtra;  (room for more functions, Stktop)
  let framesize := framesize + cfg.StackExtra
  -- if(framesize < StackMin) framesize = StackMin;
  let framesize := if framesize < cfg.StackMin then cfg.StackMin else framesize
  -- framesize += StackSystem; stk = runtime·stackalloc(framesize); free = framesize;
  let framesize := framesize + cfg.StackSystem
  (framesize, framesize)

/-- Modelled from the spec: the size formula as §4.7 step 4 words it,
`max(StackMin, frame+args) + StackExtra + StackSystem`. -/
def newstackSpecSize (cfg : StackCfg) (framesize argsize : Nat) : Nat :=
  max cfg.StackMin (framesize + argsize) + cfg.StackExtra + cfg.StackSystem

/-- C7 counterexample: with the era-typical constants `StackMin = 4096`,
`StackExtra = 1024`, `StackSystem = 0` and a request of `frame = 1024`,
`args = 0`, the code allocates 4096 bytes (and records 4096 in `top->free`)
where the spec formula demands 5120; the two sizes disagree. -/
theorem newstack_size_counterexample :
    newstackAlloc ⟨4096, 1024, 0⟩ 1024 0 = (4096, 4096) ∧
    newstackSpecSize ⟨4096, 1024, 0⟩ 1024 0 = 5120 ∧
    (newstackAlloc ⟨4096, 1024, 0⟩ 1024 0).1 ≠ newstackSpecSize ⟨4096, 1024, 0⟩ 1024 0 := by
  refine ⟨rfl, rfl, ?_⟩; decide

/-- C7 (amended): the segment allocated by `runtime·newstack` outside the
reflect-call in-place case has size
`max(StackMin, frame+args+StackExtra) + StackSystem` — the `StackExtra`
padding is added before the `StackMin` clamp, not after — where a frame size
of 1 is the reflect-call sentinel meaning a zero frame; that full size is the
value recorded in the header's `free` field. -/
theorem newstack_alloc_size (cfg : StackCfg) (framesize0 argsize : Nat) :
    newstackAlloc cfg framesize0 argsize =
      (max cfg.StackMin ((if framesize0 = 1 then 0 else framesize0) + argsize + cfg.StackExtra)
         + cfg.StackSystem,
       max cfg.StackMin ((if framesize0 = 1 then 0 else framesize0) + argsize + cfg.StackExtra)
         + cfg.StackSystem) := by
  unfold newstackAlloc
  rcases Nat.lt_or_ge ((if framesize0 = 1 then 0 else framesize0) + argsize + cfg.StackExtra)
      cfg.StackMin with h | h
  · simp only [if_pos h, Nat.max_eq_left (Nat.le_of_lt h)]
  · simp only [if_neg (Nat.not_lt.mpr h), Nat.max_eq_right h]

/-! ### Deferred-call records (proc.c 1152..1210) -/

/-- A deferred-call record (`Defer`): function, copied-argument byte count,
`nofree` flag.  Caller PC and argument bytes are not needed by the claims. -/
structure DeferRec where
  fn : Nat
  siz : Nat
  nofree : Bool
  deriving DecidableEq

/-- The per-task defer list `g->defer`, most recent record first. -/
structure GDefer where
  defer : List DeferRec
  deriving DecidableEq

/-- `runtime·deferproc` (proc.c 1152..1176): allocate a record, copy the
arguments in (a byte move we do not model), link it at the head of the
current task's defer list (`d->link = g->defer; g->defer = d`), and return 0
on normal entry. -/
def deferproc (g : GDefer) (d : DeferRec) : GDefer × Nat :=
  ({ defer := d :: g.defer }, 0)

/-- `rundefer` (proc.c 1199..1210): while the defer list is non-empty, pop
the head (`g->defer = d->link`) and invoke it via `reflect·call`.  The second
component lists the records in invocation order. -/
def rundefer : GDefer → GDefer × List DeferRec
  | ⟨[]⟩ => (⟨[]⟩, [])
  | ⟨d :: rest⟩ =>
    let r := rundefer ⟨rest⟩
    (r.1, d :: r.2)

/-- Insert a whole list of defers in order (first element inserted first). -/
def deferprocAll (g : GDefer) (ds : List DeferRec) : GDefer :=
  ds.foldl (fun t d => (deferproc t d).1) g

theorem deferprocAll_defer (ds : List DeferRec) :
    ∀ acc : List DeferRec, (deferprocAll ⟨acc⟩ ds).defer = ds.reverse ++ acc := by
  induction ds with
  | nil => intro acc; simp [deferprocAll]
  | cons d rest ih =>
    intro acc
    simp only [deferprocAll, List.foldl_cons, deferproc] at *
    rw [ih (d :: acc)]
    simp

theorem rundefer_order (l : List DeferRec) : rundefer ⟨l⟩ = (⟨[]⟩, l) := by
  induction l with
  | nil => simp [rundefer]
  | cons d rest ih => simp [rundefer, ih]

/-- C8: deferred calls run in LIFO order.  `deferproc` links each new record
at the head of the task's defer list and returns 0 on normal entry, and for a
task that inserted the records `ds` in order and then exits, the defer drain
`rundefer` invokes them in reverse insertion order. -/
theorem defer_lifo (ds : List DeferRec) :
    (∀ (g : GDefer) (d : DeferRec),
        (deferproc g d).2 = 0 ∧ (deferproc g d).1.defer = d :: g.defer) ∧
    (rundefer (deferprocAll ⟨[]⟩ ds)).2 = ds.reverse := by
  constructor
  · intro g d; exact ⟨rfl, rfl⟩
  · have h := deferprocAll_defer ds []
    have : deferprocAll ⟨[]⟩ ds = ⟨ds.reverse⟩ := by
      cases hd : deferprocAll ⟨[]⟩ ds with
      | mk l => rw [hd] at h; simp at h; simpa using h
    rw [this, rundefer_order]

/-! ### GOMAXPROCS handling in `runtime·schedinit` (proc.c 195..203) -/

/-- The GOMAXPROCS computation of `runtime·schedinit` (proc.c 195..203).
`env` is the parsed integer `runtime·atoi(p)` when the environment variable
is set (`p != nil`), `none` otherwise; `a0` is the atomic word before
`setmcpumax(runtime·gomaxprocs)`.  Returns the resulting `runtime·gomaxprocs`
together with the atomic word after the install. -/
def schedinitGomaxprocs (env : Option Int) (a0 : Nat) : Int × Nat :=
  -- runtime·gomaxprocs = 1;
  let g : Int := 1
  -- if(p != nil && (n = runtime·atoi(p)) != 0) { if(n > maxgomaxprocs) n = maxgomaxprocs; gomaxprocs = n; }
  let g := match env with
    | none => g
    | some n =>
      if n ≠ 0 then (if n > (maxgomaxprocs : Int) then (maxgomaxprocs : Int) else n) else g
  -- setmcpumax(runtime·gomaxprocs);
  (g, setmcpumax a0 (u32 g))

/-- C10: `schedinit` applies only an upper clamp to the parsed GOMAXPROCS
value: a nonzero parse result `n` is stored as `min n maxgomaxprocs` with no
lower bound — a negative value is stored unchanged as the CPU cap — and only
an unset variable or a parse result of 0 yields the default cap 1; the stored
value is installed as the mcpumax field whenever it is positive. -/
theorem schedinit_gomaxprocs_spec (env : Option Int) (a0 : Nat) (ha : a0 < 2 ^ 32) :
    (schedinitGomaxprocs env a0).1 =
      (match env with
       | none => 1
       | some n => if n = 0 then 1 else min n (maxgomaxprocs : Int)) ∧
    (∀ n : Int, env = some n → n < 0 → (schedinitGomaxprocs env a0).1 = n) ∧
    (0 < (schedinitGomaxprocs env a0).1 →
      atomic_mcpumax (schedinitGomaxprocs env a0).2 = (schedinitGomaxprocs env a0).1.toNat) := by
  have hmax : (maxgomaxprocs : Int) = 2 ^ 15 - 11 := by rw [maxgomaxprocs_eq]; norm_num
  refine ⟨?_, ?_, ?_⟩
  · cases env with
    | none => rfl
    | some n =>
      simp only [schedinitGomaxprocs]
      rcases eq_or_ne n 0 with rfl | hn
      · simp
      · simp only [if_neg (by simpa using hn), if_pos hn, hmax]
        split <;> rename_i h
        · rw [min_def, if_neg (by omega)]
        · rw [min_def, if_pos (by omega)]
  · intro n hn hneg
    subst hn
    simp only [schedinitGomaxprocs]
    rw [if_pos (by omega), if_neg (by omega)]
  · intro hpos
    set g : Int := (schedinitGomaxprocs env a0).1 with hg
    have hrange : 0 < g ∧ g ≤ (maxgomaxprocs : Int) := by
      constructor
      · exact hpos
      · rw [hg]
        cases env with
        | none =>
          show (1 : Int) ≤ _
          rw [hmax]; omega
        | some n =>
          show (if n ≠ 0 then (if n > (maxgomaxprocs : Int) then (maxgomaxprocs : Int) else n)
                else 1) ≤ _
          rcases eq_or_ne n 0 with rfl | hn
          · rw [if_neg (by simp), hmax]; omega
          · rw [if_pos hn]
            split <;> omega
    have hu : u32 g = g.toNat := by
      unfold u32
      rw [Int.emod_eq_of_lt (by omega) (by rw [hmax] at hrange; omega)]
    have hlt : g.toNat < 2 ^ 15 := by rw [hmax] at hrange; omega
    have hsnd : (schedinitGomaxprocs env a0).2 = setmcpumax a0 (u32 g) := rfl
    rw [hsnd, hu]
    exact (setmcpumax_small a0 g.toNat ha hlt).2.1

/-- Witness for C10 at `env = some (-3)`, `a0 = 2^15` (mcpumax field 1). -/
theorem schedinit_gomaxprocs_spec_witness :
    (32768 : Nat) < 2 ^ 32 ∧
    ((schedinitGomaxprocs (some (-3)) 32768).1 =
      (match some (-3 : Int) with
       | none => 1
       | some n => if n = 0 then 1 else min n (maxgomaxprocs : Int)) ∧
    (∀ n : Int, some (-3 : Int) = some n → n < 0 →
      (schedinitGomaxprocs (some (-3)) 32768).1 = n) ∧
    (0 < (schedinitGomaxprocs (some (-3)) 32768).1 →
      atomic_mcpumax (schedinitGomaxprocs (some (-3)) 32768).2 =
        (schedinitGomaxprocs (some (-3)) 32768).1.toNat)) :=
  ⟨by norm_num, schedinit_gomaxprocs_spec (some (-3)) 32768 (by norm_num)⟩

/-! ### Scheduler state (struct Sched, proc.c 55..77, plus G and M fields)

Goroutines and worker threads are named by `Nat` identifiers; `gs` and `ms`
map each identifier to the fields of the corresponding `G` / `M` structure
that the scheduler code reads or writes.  Run queue, worker free-list and
dead-task free-list are kept as lists of identifiers (the C code threads
them through intrusive `schedlink` pointers).  Calls to the note and lock
primitives and to `runtime·newosproc`/`runtime·exit` are recorded in an
append-only event log, with `notewakeup(&m->havenextg)` tagged by whether
the scheduler lock was held at the moment of the call. -/

inductive Gstatus
  | Gidle | Grunnable | Grunning | Gsyscall | Gwaiting | Gmoribund | Gdead
  deriving DecidableEq

/-- The distinct `runtime·throw` calls reachable in the modelled code. -/
inductive Throw
  | doubleIdle              -- "runtime: double idle"
  | badGStatusInReady       -- "bad g->status in ready"
  | ggetInconsistency       -- "gget inconsistency"
  | badGpStatusInSched      -- "bad gp->status in sched"
  | negativeMcpuInScheduler -- "negative mcpu in scheduler"
  | initRescheduling        -- "init rescheduling"
  | invalidMcpumaxDuringGc  -- "invalid mcpumax during gc"
  deriving DecidableEq

inductive Event
  | lockSched                                  -- runtime·lock(&runtime·sched)
  | unlockSched                                -- runtime·unlock(&runtime·sched)
  | wakeHavenextg (mid : Nat) (lockHeld : Bool) -- runtime·notewakeup(&m->havenextg)
  | wakeStopped                                -- runtime·notewakeup(&runtime·sched.stopped)
  | newOSProc (mid : Nat)                      -- runtime·newosproc(...)
  | exitProcess (code : Int)                   -- runtime·exit(code)
  deriving DecidableEq

/-- The `G` fields the modelled scheduler code touches. -/
structure Gst where
  status : Gstatus
  m : Option Nat            -- g->m
  lockedm : Option Nat      -- g->lockedm
  idlem : Option Nat        -- g->idlem
  readyonstop : Bool        -- g->readyonstop
  deriving DecidableEq

/-- The `M` fields the modelled scheduler code touches. -/
structure Mst where
  nextg : Option Nat        -- m->nextg
  waitnextg : Bool          -- m->waitnextg
  idleg : Option Nat        -- m->idleg
  lockedg : Option Nat      -- m->lockedg
  mallocing : Bool          -- m->mallocing
  gcing : Bool              -- m->gcing
  profilehz : Int           -- m->profilehz
  deriving DecidableEq

structure Sched where
  gs : Nat → Gst
  ms : Nat → Mst
  gfree : List Nat          -- available g's (status == Gdead)
  ghead : List Nat          -- g's waiting to run, FIFO head first (ghead/gtail)
  gwait : Int               -- number of g's waiting to run
  gcount : Int              -- number of g's that are alive
  grunning : Int            -- number of g's running on cpu or in syscall
  mhead : List Nat          -- m's waiting for work, LIFO
  mwait : Int               -- number of m's waiting for work
  mcount : Nat              -- number of m's that have been created
  atomic : Nat              -- the atomic scheduling word
  gomaxprocs : Int          -- runtime·gomaxprocs
  singleproc : Bool         -- runtime·singleproc
  predawn : Bool            -- sched.predawn
  gcwaiting : Bool          -- runtime·gcwaiting
  profilehz : Int           -- sched.profilehz
  mwakeup : Option Nat      -- static M* mwakeup
  lockHeld : Bool           -- whether the scheduler lock is currently held
  log : List Event

def setG (s : Sched) (gid : Nat) (g : Gst) : Sched :=
  { s with gs := fun i => if i = gid then g else s.gs i }

def setM (s : Sched) (mid : Nat) (mm : Mst) : Sched :=
  { s with ms := fun i => if i = mid then mm else s.ms i }

def emit (s : Sched) (e : Event) : Sched := { s with log := s.log ++ [e] }

/-- `schedlock` (proc.c 210..214). -/
def schedlock (s : Sched) : Sched :=
  emit { s with lockHeld := true } .lockSched

/-- `schedunlock` (proc.c 217..227): drain the `mwakeup` register, release
the lock, and only then issue the deferred `notewakeup`. -/
def schedunlock (s : Sched) : Sched :=
  let mw := s.mwakeup
  let s : Sched := emit { s with mwakeup := none, lockHeld := false } .unlockSched
  match mw with
  | some mid => emit s (.wakeHavenextg mid false)  -- issued after the unlock
  | none => s

/-- `mnextg` (proc.c 487..498): pass g to m for running (mcpu was already
incremented by the caller).  If the worker is waiting on its havenextg note,
any previously deferred wakeup is issued immediately — while the scheduler
lock is still held — and this worker takes its place in `mwakeup`. -/
def mnextg (s : Sched) (mid gid : Nat) : Sched :=
  let mm := s.ms mid
  let s : Sched := { s with grunning := s.grunning + 1 }
  if mm.waitnextg then
    let s := setM s mid { mm with nextg := some gid, waitnextg := false }
    let s := match s.mwakeup with
      | some w => emit s (.wakeHavenextg w s.lockHeld)
      | none => s
    { s with mwakeup := some mid }
  else
    setM s mid { mm with nextg := some gid }

/-- The idle-goroutine and FIFO cases of `gput` (proc.c 355..377): append at
the tail (`g->schedlink = nil; ...; sched.gtail = g`), increment `gwait`, and
set the atomic gwaiting bit if `gwait` transitioned from zero to nonzero
(`if(runtime·sched.gwait++ == 0) xadd(&atomic, 1<<gwaitingShift)`). -/
def gputQueue (s : Sched) (gid : Nat) : Except Throw Sched :=
  match (s.gs gid).idlem with
  | some mid =>
    -- If g is the idle goroutine for an m, hand it off.
    if (s.ms mid).idleg ≠ none then .error .doubleIdle
    else .ok (setM s mid { s.ms mid with idleg := some gid })
  | none =>
    if s.gwait = 0 then
      .ok { s with ghead := s.ghead ++ [gid], gwait := s.gwait + 1,
                   atomic := xadd s.atomic ((1 <<< gwaitingShift : Nat) : Int) }
    else
      .ok { s with ghead := s.ghead ++ [gid], gwait := s.gwait + 1 }

/-- `gput` (proc.c 344..378).  Sched must be locked. -/
def gput (s : Sched) (gid : Nat) : Except Throw Sched :=
  -- If g is wired, hand it off directly.
  match (s.gs gid).lockedm with
  | some mid =>
    match canaddmcpu s.atomic with
    | (true, a) => .ok (mnextg { s with atomic := a } mid gid)
    | (false, _) => gputQueue s gid
  | none => gputQueue s gid

/-- `haveg` (proc.c 381..385): report whether `gget` would return something
for the current worker `cur`. -/
def haveg (s : Sched) (cur : Nat) : Bool :=
  !s.ghead.isEmpty || (s.ms cur).idleg.isSome

/-- `gget` (proc.c 388..407).  Sched must be locked; `cur` is the calling
worker (whose private idle task is consulted when the FIFO is empty). -/
def gget (s : Sched) (cur : Nat) : Option Nat × Sched :=
  match s.ghead with
  | gid :: rest =>
    -- pop the head; decrement gwait and, on the transition to zero, clear
    -- the atomic gwaiting bit (`if(--runtime·sched.gwait == 0) ...`).
    if s.gwait - 1 = 0 then
      (some gid, { s with ghead := rest, gwait := s.gwait - 1,
                          atomic := xadd s.atomic (-((1 <<< gwaitingShift : Nat) : Int)) })
    else
      (some gid, { s with ghead := rest, gwait := s.gwait - 1 })
  | [] =>
    match (s.ms cur).idleg with
    | some gid => (some gid, setM s cur { s.ms cur with idleg := none })
    | none => (none, s)

/-- `mput` (proc.c 410..416). -/
def mput (s : Sched) (mid : Nat) : Sched :=
  { s with mhead := mid :: s.mhead, mwait := s.mwait + 1 }

/-- `mget` (proc.c 419..434): the wired worker if g has one, else a parked
worker from the pool. -/
def mget (s : Sched) (gid : Nat) : Option Nat × Sched :=
  match (s.gs gid).lockedm with
  | some mid => (some mid, s)
  | none =>
    match s.mhead with
    | mid :: rest => (some mid, { s with mhead := rest, mwait := s.mwait - 1 })
    | [] => (none, s)

/-- The worker-creation path inside `matchmg` (proc.c 692..714, non-cgo,
non-Windows) together with `mcommoninit` (proc.c 312..326): allocate a
zeroed M, assign it the next id (`m->id = runtime·sched.mcount++`), and
start an OS thread for it (`runtime·newosproc`).  Stack / allocator setup
(`runtime·malg`, `FixAlloc_Init`) is abstracted away. -/
def mnew (s : Sched) : Nat × Sched :=
  let mid := s.mcount
  let s : Sched := { s with mcount := s.mcount + 1 }
  let s := setM s mid { nextg := none, waitnextg := false, idleg := none,
                        lockedg := none, mallocing := false, gcing := false,
                        profilehz := 0 }
  (mid, emit s (.newOSProc mid))

/-- The `while(haveg() && canaddmcpu())` loop of `matchmg` (proc.c 685..717).
`fuel` bounds the number of iterations; `matchmg` supplies enough fuel for
the loop to run to completion (each iteration removes one entry from the run
queue or consumes the current worker's idle task, and replenishes neither). -/
def matchmgAux : Nat → Sched → Nat → Except Throw Sched
  | 0, s, _ => .ok s
  | fuel + 1, s, cur =>
    if haveg s cur then
      match canaddmcpu s.atomic with
      | (false, _) => .ok s
      | (true, a) =>
        let s : Sched := { s with atomic := a }
        match gget s cur with
        | (none, _) => .error .ggetInconsistency
        | (some gid, s) =>
          -- Find the m that will run g: mget, else create one.
          match mget s gid with
          | (some mid, s) => matchmgAux fuel (mnextg s mid gid) cur
          | (none, s) =>
            let (mid, s) := mnew s
            matchmgAux fuel (mnextg s mid gid) cur
    else .ok s

/-- `matchmg` (proc.c 677..718): kick off new m's as needed, up to mcpumax.
Returns immediately if the current worker is in malloc or gc. -/
def matchmg (s : Sched) (cur : Nat) : Except Throw Sched :=
  if (s.ms cur).mallocing || (s.ms cur).gcing then .ok s
  else matchmgAux (s.ghead.length + 2) s cur

/-- `readylocked` (proc.c 448..468): mark g ready to run with the sched lock
held.  If g is running on another worker, just set `readyonstop`; otherwise
check the status, mark runnable, `gput`, and (outside predawn) `matchmg`. -/
def readylocked (s : Sched) (cur gid : Nat) : Except Throw Sched :=
  let g := s.gs gid
  if g.m.isSome then
    -- Running on another machine; ready it when it stops.
    .ok (setG s gid { g with readyonstop := true })
  else if g.status = .Grunnable || g.status = .Grunning then
    .error .badGStatusInReady
  else do
    let s := setG s gid { g with status := .Grunnable }
    let s ← gput s gid
    if !s.predawn then matchmg s cur else .ok s

/-- The status switch of `schedule` (proc.c 744..765).  Only `Grunnable` and
`Gdead` are rejected; `Grunning` is requeued, `Gmoribund` is retired, and the
remaining statuses (`Gsyscall`, `Gwaiting`, `Gidle`) have no case in the C
switch and fall through.  The Bool reports whether `runtime·exit(0)` ended
the process (in which case nothing further runs). -/
def scheduleStatusSwitch (s : Sched) (cur gid : Nat) : Except Throw (Bool × Sched) :=
  match (s.gs gid).status with
  | .Grunnable => .error .badGpStatusInSched
  | .Gdead => .error .badGpStatusInSched
  | .Grunning => do
    let s := setG s gid { s.gs gid with status := .Grunnable }
    let s ← gput s gid
    .ok (false, s)
  | .Gmoribund =>
    let s := setG s gid { s.gs gid with status := .Gdead }
    -- if(gp->lockedm){ gp->lockedm = nil; m->lockedg = nil; }  (m is cur)
    let s : Sched :=
      match (s.gs gid).lockedm with
      | some _ =>
        let s := setG s gid { s.gs gid with lockedm := none }
        setM s cur { s.ms cur with lockedg := none }
      | none => s
    let s := setG s gid { s.gs gid with idlem := none }
    -- unwindstack(gp, nil) frees stack segments: outside the model.
    -- gfput (proc.c 1401..1408); its stack-guard validation involves
    -- pointers that the model does not carry.
    let s : Sched := { s with gfree := gid :: s.gfree }
    let s : Sched := { s with gcount := s.gcount - 1 }
    if s.gcount = 0 then .ok (true, emit s (.exitProcess 0))
    else .ok (false, s)
  | _ => .ok (false, s)

/-- The prev-goroutine half of `schedule` (proc.c 724..770) as run on behalf
of a non-nil `gp` (the task that was just suspended), up to but not including
`nextgandunlock`: decouple `gp` from the worker, decrement `grunning`,
atomically decrement mcpu, dispatch on `gp->status`, and re-ready `gp` if
`readyonstop` was set. -/
def scheduleStep (s : Sched) (cur gid : Nat) : Except Throw Sched := do
  let s := schedlock s
  if s.predawn then .error .initRescheduling
  else
    -- gp->m = nil; runtime·sched.grunning--;
    let s := setG s gid { s.gs gid with m := none }
    let s : Sched := { s with grunning := s.grunning - 1 }
    -- atomic { mcpu-- }
    let v := xadd s.atomic (-((1 <<< mcpuShift : Nat) : Int))
    let s : Sched := { s with atomic := v }
    if maxgomaxprocs < atomic_mcpu v then .error .negativeMcpuInScheduler
    else do
      let (exited, s) ← scheduleStatusSwitch s cur gid
      if exited then .ok s
      else
        -- if(gp->readyonstop){ gp->readyonstop = 0; readylocked(gp); }
        if (s.gs gid).readyonstop then
          let s := setG s gid { s.gs gid with readyonstop := false }
          readylocked s cur gid
        else .ok s

/-- `runtime·entersyscall` (proc.c 819..867) outside predawn.  The context
save (`runtime·gosave`) and the gcsp/gcstack/gcguard stack-extent snapshot
are pointer bookkeeping outside the model (as is the consistency `throw`
guarding them).  `cur` is the worker, `gid` the running task. -/
def entersyscall (s : Sched) (cur gid : Nat) : Except Throw Sched :=
  if s.predawn then .ok s
  else
    -- g->status = Gsyscall;
    let s := setG s gid { s.gs gid with status := .Gsyscall }
    -- Fast path: v = runtime·xadd(&runtime·sched.atomic, -1<<mcpuShift);
    let v := xadd s.atomic (-((1 <<< mcpuShift : Nat) : Int))
    let s : Sched := { s with atomic := v }
    if atomic_gwaiting v = 0 ∧ (atomic_waitstop v = 0 ∨ atomic_mcpumax v < atomic_mcpu v) then
      .ok s
    else do
      let s := schedlock s
      -- v = runtime·atomicload(&runtime·sched.atomic); if(atomic_gwaiting(v)) matchmg();
      let s ← if atomic_gwaiting s.atomic = 1 then matchmg s cur else pure s
      -- if(atomic_waitstop(v) && atomic_mcpu(v) <= atomic_mcpumax(v)) { clear waitstop; wake stopped }
      let s : Sched :=
        if atomic_waitstop s.atomic = 1 ∧ atomic_mcpu s.atomic ≤ atomic_mcpumax s.atomic then
          emit { s with atomic := xadd s.atomic (-((1 <<< waitstopShift : Nat) : Int)) }
            .wakeStopped
        else s
      -- runtime·gosave(&g->sched) re-saves the context: outside the model.
      .ok (schedunlock s)

/-- `runtime·exitsyscall` (proc.c 873..915) outside predawn.  The fast path
reclaims a cpu with one atomic add; otherwise the task marks itself
`readyonstop` and yields (`runtime·gosched` → `schedule(g)`, modelled by
`scheduleStep`).  Clearing `g->gcstack` is stack bookkeeping outside the
model. -/
def exitsyscall (s : Sched) (cur gid : Nat) : Except Throw Sched :=
  if s.predawn then .ok s
  else
    -- v = runtime·xadd(&runtime·sched.atomic, (1<<mcpuShift));
    let v := xadd s.atomic ((1 <<< mcpuShift : Nat) : Int)
    let s : Sched := { s with atomic := v }
    if (s.ms cur).profilehz = s.profilehz ∧ atomic_mcpu v ≤ atomic_mcpumax v then
      -- There's a cpu for us, so we can run: g->status = Grunning;
      .ok (setG s gid { s.gs gid with status := .Grunning })
    else
      -- g->readyonstop = 1; runtime·gosched();
      let s := setG s gid { s.gs gid with readyonstop := true }
      scheduleStep s cur gid

/-- `runtime·gomaxprocsfunc` (proc.c 1451..1487).  `cur`/`gid` identify the
calling worker and task (used when the function has to `runtime·gosched`).
Returns the previous `gomaxprocs` together with the final state. -/
def gomaxprocsfunc (s : Sched) (cur gid : Nat) (n : Int) : Except Throw (Int × Sched) := do
  let s := schedlock s
  let ret := s.gomaxprocs
  let n := if n ≤ 0 then ret else n
  let n := if n > (maxgomaxprocs : Int) then (maxgomaxprocs : Int) else n
  let s : Sched := { s with gomaxprocs := n }
  let s : Sched := if s.gomaxprocs > 1 then { s with singleproc := false } else s
  if s.gcwaiting then
    if atomic_mcpumax s.atomic ≠ 1 then .error .invalidMcpumaxDuringGc
    else .ok (ret, schedunlock s)
  else
    let s : Sched := { s with atomic := setmcpumax s.atomic (u32 n) }
    -- If there are now fewer allowed procs than procs running, stop.
    -- (C compares the uint32 field against the int32 n, so n is converted.)
    let v := s.atomic
    if u32 n < atomic_mcpu v then do
      let s := schedunlock s
      let s ← scheduleStep s cur gid  -- runtime·gosched()
      .ok (ret, s)
    else do
      -- handle more procs
      let s ← matchmg s cur
      .ok (ret, schedunlock s)

/-! ### Frame lemmas for the elementary operations -/

theorem mnextg_frame (s : Sched) (mid gid : Nat) :
    (mnextg s mid gid).atomic = s.atomic ∧
    (mnextg s mid gid).gwait = s.gwait ∧
    (mnextg s mid gid).ghead = s.ghead ∧
    (mnextg s mid gid).gs = s.gs ∧
    (mnextg s mid gid).gomaxprocs = s.gomaxprocs ∧
    (mnextg s mid gid).predawn = s.predawn ∧
    (mnextg s mid gid).mcount = s.mcount ∧
    (∀ i, ((mnextg s mid gid).ms i).idleg = (s.ms i).idleg) := by
  unfold mnextg
  cases hw : (s.ms mid).waitnextg <;> cases hm : s.mwakeup <;>
    simp [hw, hm, setM, emit] <;> intro i <;> split <;> simp_all

theorem mnew_frame (s : Sched) :
    (mnew s).2.atomic = s.atomic ∧
    (mnew s).2.gwait = s.gwait ∧
    (mnew s).2.ghead = s.ghead ∧
    (mnew s).2.gs = s.gs ∧
    (mnew s).2.gomaxprocs = s.gomaxprocs ∧
    (mnew s).2.predawn = s.predawn ∧
    (mnew s).2.log = s.log ++ [Event.newOSProc s.mcount] ∧
    (∀ i, ((mnew s).2.ms i).idleg = none ∨ ((mnew s).2.ms i).idleg = (s.ms i).idleg) := by
  unfold mnew
  simp [setM, emit]
  intro i
  split <;> simp

theorem mget_frame (s : Sched) (gid : Nat) :
    (mget s gid).2.atomic = s.atomic ∧
    (mget s gid).2.gwait = s.gwait ∧
    (mget s gid).2.ghead = s.ghead ∧
    (mget s gid).2.gs = s.gs ∧
    (mget s gid).2.gomaxprocs = s.gomaxprocs ∧
    (mget s gid).2.predawn = s.predawn ∧
    (mget s gid).2.ms = s.ms ∧
    (mget s gid).2.log = s.log := by
  unfold mget
  cases h : (s.gs gid).lockedm <;> [cases hh : s.mhead; skip] <;> simp

/-- Helper: the two outcomes of `canaddmcpu`, with field bookkeeping. -/
theorem canaddmcpu_cases (v : Nat) (hv : v < 2 ^ 32) :
    (atomic_mcpu v < atomic_mcpumax v ∧ canaddmcpu v = (true, v + 1) ∧
      atomic_mcpu (v + 1) = atomic_mcpu v + 1 ∧
      atomic_mcpumax (v + 1) = atomic_mcpumax v ∧
      atomic_waitstop (v + 1) = atomic_waitstop v ∧
      atomic_gwaiting (v + 1) = atomic_gwaiting v ∧
      v + 1 < 2 ^ 32) ∨
    (atomic_mcpumax v ≤ atomic_mcpu v ∧ canaddmcpu v = (false, v)) := by
  rcases Nat.lt_or_ge (atomic_mcpu v) (atomic_mcpumax v) with h | h
  · left
    have hfield : v % 2 ^ 15 < 2 ^ 15 - 1 := by
      have h1 := atomic_mcpu_eq v
      have h2 := atomic_mcpumax_eq v
      have h3 : v / 2 ^ 15 % 2 ^ 15 < 2 ^ 15 := Nat.mod_lt _ (by norm_num)
      omega
    have hlt : v + 1 < 2 ^ 32 := by
      have := atomic_mcpu_eq v
      omega
    refine ⟨h, ?_, ?_, ?_, ?_, ?_, hlt⟩
    · simp only [canaddmcpu, if_neg (by omega : ¬ atomic_mcpumax v ≤ atomic_mcpu v),
        mcpuShift, Nat.shiftLeft_eq, w32]
      rw [Nat.mod_eq_of_lt (by omega)]
    · rw [atomic_mcpu_eq, atomic_mcpu_eq]; omega
    · rw [atomic_mcpumax_eq, atomic_mcpumax_eq]; omega
    · rw [atomic_waitstop_eq, atomic_waitstop_eq]; omega
    · rw [atomic_gwaiting_eq, atomic_gwaiting_eq]; omega
  · right
    exact ⟨h, by simp only [canaddmcpu, if_pos h]⟩

/-- The gwaiting invariant of the run queue: the atomic bit mirrors
`gwait != 0`, and `gwait` counts the FIFO entries. -/
def GwaitInv (s : Sched) : Prop :=
  (atomic_gwaiting s.atomic = 1 ↔ 0 < s.gwait) ∧ s.gwait = s.ghead.length

instance (s : Sched) : Decidable (GwaitInv s) := by unfold GwaitInv; infer_instance

/-- Setting the gwaiting bit when it is clear. -/
theorem xadd_set_gwaiting (v : Nat) (hv : v < 2 ^ 32) (h : atomic_gwaiting v = 0) :
    atomic_gwaiting (xadd v ((1 <<< gwaitingShift : Nat) : Int)) = 1 ∧
    xadd v ((1 <<< gwaitingShift : Nat) : Int) < 2 ^ 32 := by
  obtain ⟨heq, hlt⟩ := xadd_top_bit v _ hv (Or.inl rfl)
  rw [atomic_gwaiting_eq] at h
  have hsmall : v < 2 ^ 31 := by omega
  rw [heq, if_pos hsmall] at *
  constructor
  · rw [atomic_gwaiting_eq]; omega
  · exact hlt

/-- Clearing the gwaiting bit when it is set. -/
theorem xadd_clear_gwaiting (v : Nat) (hv : v < 2 ^ 32) (h : atomic_gwaiting v = 1) :
    atomic_gwaiting (xadd v (-((1 <<< gwaitingShift : Nat) : Int))) = 0 ∧
    xadd v (-((1 <<< gwaitingShift : Nat) : Int)) < 2 ^ 32 := by
  obtain ⟨heq, hlt⟩ := xadd_top_bit v _ hv (Or.inr rfl)
  rw [atomic_gwaiting_eq] at h
  have hbig : ¬ v < 2 ^ 31 := by omega
  rw [heq, if_neg hbig] at *
  constructor
  · rw [atomic_gwaiting_eq]; omega
  · exact hlt

/-- C1: the run-queue mutators preserve `gwaiting = 1 ⇔ gwait > 0`: starting
from any state satisfying the invariant, every successful `gput` and every
`gget` re-establish it; moreover on the FIFO-append path `gput` performs the
atomic bit-set exactly when the queue goes from empty to non-empty (the word
is untouched otherwise), and `gget`'s pop path leaves the bit equal to
whether entries remain, touching the word exactly when the queue empties. -/
theorem gput_gget_gwaiting (s : Sched) (gid cur : Nat)
    (hwf : s.atomic < 2 ^ 32) (hinv : GwaitInv s) :
    (∀ s', gput s gid = .ok s' → GwaitInv s' ∧ s'.atomic < 2 ^ 32) ∧
    (GwaitInv (gget s cur).2 ∧ (gget s cur).2.atomic < 2 ^ 32) ∧
    ((s.gs gid).lockedm = none → (s.gs gid).idlem = none →
      ∃ s', gput s gid = .ok s' ∧
        atomic_gwaiting s'.atomic = 1 ∧
        (s.gwait = 0 → s'.atomic = xadd s.atomic ((1 <<< gwaitingShift : Nat) : Int)) ∧
        (0 < s.gwait → s'.atomic = s.atomic)) ∧
    (s.ghead ≠ [] →
      atomic_gwaiting (gget s cur).2.atomic = (if (gget s cur).2.gwait = 0 then 0 else 1) ∧
      ((gget s cur).2.gwait ≠ 0 → (gget s cur).2.atomic = s.atomic)) := by
  obtain ⟨hbit, hcount⟩ := hinv
  have hb2 : atomic_gwaiting s.atomic = 0 ∨ atomic_gwaiting s.atomic = 1 := by
    rw [atomic_gwaiting_eq]; omega
  refine ⟨?_, ?_, ?_, ?_⟩
  · -- gput preserves the invariant on every successful path.
    intro s' hok
    unfold gput at hok
    cases hlk : (s.gs gid).lockedm with
    | some mid =>
      rw [hlk] at hok
      dsimp only at hok
      rcases canaddmcpu_cases s.atomic hwf with ⟨_, hc, _, _, _, hgw, hlt1⟩ | ⟨_, hc⟩
      · rw [hc] at hok
        dsimp only at hok
        simp only [Except.ok.injEq] at hok
        subst hok
        obtain ⟨hma, hmw, hmh, -⟩ := mnextg_frame { s with atomic := s.atomic + 1 } mid gid
        refine ⟨⟨?_, ?_⟩, ?_⟩
        · rw [hma, hmw]; show atomic_gwaiting (s.atomic + 1) = 1 ↔ 0 < s.gwait
          rw [hgw]; exact hbit
        · rw [hmw, hmh]; exact hcount
        · rw [hma]; exact hlt1
      · rw [hc] at hok
        dsimp only at hok
        unfold gputQueue at hok
        cases hidle : (s.gs gid).idlem with
        | some mm =>
          rw [hidle] at hok
          dsimp only at hok
          split at hok
          · simp at hok
          · simp only [Except.ok.injEq] at hok
            subst hok
            exact ⟨⟨hbit, hcount⟩, hwf⟩
        | none =>
          rw [hidle] at hok
          dsimp only at hok
          by_cases hz : s.gwait = 0
          · rw [if_pos hz] at hok
            simp only [Except.ok.injEq] at hok
            subst hok
            have hg0 : atomic_gwaiting s.atomic = 0 := by
              rcases hb2 with h0 | h1
              · exact h0
              · exact absurd (hbit.mp h1) (by omega)
            obtain ⟨hset, hlt⟩ := xadd_set_gwaiting s.atomic hwf hg0
            refine ⟨⟨?_, ?_⟩, hlt⟩
            · show atomic_gwaiting (xadd s.atomic ((1 <<< gwaitingShift : Nat) : Int)) = 1 ↔
                0 < s.gwait + 1
              rw [hset]; omega
            · show s.gwait + 1 = ((s.ghead ++ [gid]).length : Int)
              simp; omega
          · rw [if_neg hz] at hok
            simp only [Except.ok.injEq] at hok
            subst hok
            refine ⟨⟨?_, ?_⟩, hwf⟩
            · show atomic_gwaiting s.atomic = 1 ↔ 0 < s.gwait + 1
              have h1 : atomic_gwaiting s.atomic = 1 := hbit.mpr (by omega)
              omega
            · show s.gwait + 1 = ((s.ghead ++ [gid]).length : Int)
              simp; omega
    | none =>
      rw [hlk] at hok
      dsimp only at hok
      unfold gputQueue at hok
      cases hidle : (s.gs gid).idlem with
      | some mm =>
        rw [hidle] at hok
        dsimp only at hok
        split at hok
        · simp at hok
        · simp only [Except.ok.injEq] at hok
          subst hok
          exact ⟨⟨hbit, hcount⟩, hwf⟩
      | none =>
        rw [hidle] at hok
        dsimp only at hok
        by_cases hz : s.gwait = 0
        · rw [if_pos hz] at hok
          simp only [Except.ok.injEq] at hok
          subst hok
          have hg0 : atomic_gwaiting s.atomic = 0 := by
            rcases hb2 with h0 | h1
            · exact h0
            · exact absurd (hbit.mp h1) (by omega)
          obtain ⟨hset, hlt⟩ := xadd_set_gwaiting s.atomic hwf hg0
          refine ⟨⟨?_, ?_⟩, hlt⟩
          · show atomic_gwaiting (xadd s.atomic ((1 <<< gwaitingShift : Nat) : Int)) = 1 ↔
              0 < s.gwait + 1
            rw [hset]; omega
          · show s.gwait + 1 = ((s.ghead ++ [gid]).length : Int)
            simp; omega
        · rw [if_neg hz] at hok
          simp only [Except.ok.injEq] at hok
          subst hok
          refine ⟨⟨?_, ?_⟩, hwf⟩
          · show atomic_gwaiting s.atomic = 1 ↔ 0 < s.gwait + 1
            have h1 : atomic_gwaiting s.atomic = 1 := hbit.mpr (by omega)
            omega
          · show s.gwait + 1 = ((s.ghead ++ [gid]).length : Int)
            simp; omega
  · -- gget preserves the invariant.
    unfold gget
    cases hh : s.ghead with
    | cons g rest =>
      dsimp only
      have hpos : 0 < s.gwait := by
        have := hcount; rw [hh] at this; simp at this; omega
      have hg1 : atomic_gwaiting s.atomic = 1 := hbit.mpr hpos
      have hlen : s.gwait = (rest.length : Int) + 1 := by
        have := hcount; rw [hh] at this; simp at this; omega
      by_cases hz : s.gwait - 1 = 0
      · rw [if_pos hz]
        obtain ⟨hclr, hlt⟩ := xadd_clear_gwaiting s.atomic hwf hg1
        refine ⟨⟨?_, ?_⟩, hlt⟩
        · show atomic_gwaiting (xadd s.atomic (-((1 <<< gwaitingShift : Nat) : Int))) = 1 ↔
            0 < s.gwait - 1
          rw [hclr]; omega
        · show s.gwait - 1 = (rest.length : Int)
          omega
      · rw [if_neg hz]
        refine ⟨⟨?_, ?_⟩, hwf⟩
        · show atomic_gwaiting s.atomic = 1 ↔ 0 < s.gwait - 1
          omega
        · show s.gwait - 1 = (rest.length : Int)
          omega
    | nil =>
      dsimp only
      cases hidle : (s.ms cur).idleg with
      | some g => exact ⟨⟨hbit, hcount⟩, hwf⟩
      | none => exact ⟨⟨hbit, hcount⟩, hwf⟩
  · -- FIFO-append path: the bit-set happens exactly on the empty→non-empty edge.
    intro hlk hidle
    unfold gput gputQueue
    rw [hlk, hidle]
    dsimp only
    by_cases hz : s.gwait = 0
    · rw [if_pos hz]
      have hg0 : atomic_gwaiting s.atomic = 0 := by
        rcases hb2 with h0 | h1
        · exact h0
        · exact absurd (hbit.mp h1) (by omega)
      obtain ⟨hset, -⟩ := xadd_set_gwaiting s.atomic hwf hg0
      exact ⟨_, rfl, hset, fun _ => rfl, fun hpos => absurd hz (by omega)⟩
    · rw [if_neg hz]
      refine ⟨_, rfl, ?_, fun h0 => absurd h0 hz, fun _ => rfl⟩
      show atomic_gwaiting s.atomic = 1
      exact hbit.mpr (by omega)
  · -- gget pop path: the bit ends up reflecting the remaining count.
    intro hne
    unfold gget
    cases hh : s.ghead with
    | nil => exact absurd hh hne
    | cons g rest =>
      dsimp only
      have hpos : 0 < s.gwait := by
        have := hcount; rw [hh] at this; simp at this; omega
      have hg1 : atomic_gwaiting s.atomic = 1 := hbit.mpr hpos
      by_cases hz : s.gwait - 1 = 0
      · rw [if_pos hz]
        obtain ⟨hclr, -⟩ := xadd_clear_gwaiting s.atomic hwf hg1
        constructor
        · show atomic_gwaiting (xadd s.atomic (-((1 <<< gwaitingShift : Nat) : Int))) =
            if s.gwait - 1 = 0 then 0 else 1
          rw [if_pos hz]; exact hclr
        · exact fun hnz => absurd hz hnz
      · rw [if_neg hz]
        constructor
        · show atomic_gwaiting s.atomic = if s.gwait - 1 = 0 then 0 else 1
          rw [if_neg hz]; exact hg1
        · exact fun _ => rfl

/-! ### Concrete base states for witnesses and counterexamples -/

def g0st : Gst :=
  { status := .Gidle, m := none, lockedm := none, idlem := none, readyonstop := false }

def m0st : Mst :=
  { nextg := none, waitnextg := false, idleg := none, lockedg := none,
    mallocing := false, gcing := false, profilehz := 0 }

def sched0 : Sched :=
  { gs := fun _ => g0st, ms := fun _ => m0st, gfree := [], ghead := [], gwait := 0,
    gcount := 0, grunning := 0, mhead := [], mwait := 0, mcount := 0, atomic := 0,
    gomaxprocs := 1, singleproc := true, predawn := false, gcwaiting := false,
    profilehz := 0, mwakeup := none, lockHeld := false, log := [] }

/-- Witness for C1 at the empty scheduler state, `gid = 1`, `cur = 0`. -/
theorem gput_gget_gwaiting_witness :
    (sched0.atomic < 2 ^ 32 ∧ GwaitInv sched0) ∧
    ((∀ s', gput sched0 1 = .ok s' → GwaitInv s' ∧ s'.atomic < 2 ^ 32) ∧
    (GwaitInv (gget sched0 0).2 ∧ (gget sched0 0).2.atomic < 2 ^ 32) ∧
    ((sched0.gs 1).lockedm = none → (sched0.gs 1).idlem = none →
      ∃ s', gput sched0 1 = .ok s' ∧
        atomic_gwaiting s'.atomic = 1 ∧
        (sched0.gwait = 0 → s'.atomic = xadd sched0.atomic ((1 <<< gwaitingShift : Nat) : Int)) ∧
        (0 < sched0.gwait → s'.atomic = sched0.atomic)) ∧
    (sched0.ghead ≠ [] →
      atomic_gwaiting (gget sched0 0).2.atomic =
        (if (gget sched0 0).2.gwait = 0 then 0 else 1) ∧
      ((gget sched0 0).2.gwait ≠ 0 → (gget sched0 0).2.atomic = sched0.atomic))) :=
  ⟨⟨by decide, by decide⟩, gput_gget_gwaiting sched0 1 0 (by decide) (by decide)⟩

/-! ### The `mwakeup` protocol (C5) -/

/-- A scheduler-lock critical section consisting of a sequence of `mnextg`
hand-offs: take the lock, run the hand-offs, release via `schedunlock`. -/
def runHandoffs (s : Sched) (hs : List (Nat × Nat)) : Sched :=
  hs.foldl (fun t p => mnextg t p.1 p.2) s

def criticalSection (s : Sched) (hs : List (Nat × Nat)) : Sched :=
  schedunlock (runHandoffs (schedlock s) hs)

def isWakeHavenextg : Event → Bool
  | .wakeHavenextg _ _ => true
  | _ => false

/-- State with two workers parked waiting on their havenextg notes. -/
def schedC5 : Sched := { sched0 with ms := fun _ => { m0st with waitnextg := true } }

/-- C5 counterexample: in one critical section that hands tasks to two
waiting workers, the second `mnextg` issues `notewakeup(&m0->havenextg)`
while the scheduler lock is still held, and the section issues two
havenextg wakeups in total — refuting both "at most one notewakeup per
critical section" and "no notewakeup while the lock is held". -/
theorem mwakeup_counterexample :
    (criticalSection schedC5 [(0, 10), (1, 11)]).log =
      [.lockSched, .wakeHavenextg 0 true, .unlockSched, .wakeHavenextg 1 false] ∧
    ((criticalSection schedC5 [(0, 10), (1, 11)]).log.filter isWakeHavenextg).length = 2 ∧
    Event.wakeHavenextg 0 true ∈ (criticalSection schedC5 [(0, 10), (1, 11)]).log := by
  refine ⟨by decide, by decide, by decide⟩

theorem mnextg_log (t : Sched) (mid gid : Nat) :
    ((mnextg t mid gid).log = t.log ∨
      ∃ w, (mnextg t mid gid).log = t.log ++ [.wakeHavenextg w t.lockHeld]) ∧
    (mnextg t mid gid).lockHeld = t.lockHeld := by
  unfold mnextg
  cases hw : (t.ms mid).waitnextg <;> cases hm : t.mwakeup <;> simp [hw, hm, setM, emit]

theorem runHandoffs_log (hs : List (Nat × Nat)) :
    ∀ t : Sched, t.lockHeld = true →
    ∃ wakes : List Event,
      (runHandoffs t hs).log = t.log ++ wakes ∧
      (∀ e ∈ wakes, ∃ mid, e = Event.wakeHavenextg mid true) ∧
      (runHandoffs t hs).lockHeld = true := by
  induction hs with
  | nil =>
    intro t ht
    exact ⟨[], by simp [runHandoffs], by simp, by simpa [runHandoffs] using ht⟩
  | cons p rest ih =>
    intro t ht
    have hstep : runHandoffs t (p :: rest) = runHandoffs (mnextg t p.1 p.2) rest := by
      simp [runHandoffs]
    obtain ⟨hlog, hheld⟩ := mnextg_log t p.1 p.2
    obtain ⟨wakes, hw1, hw2, hw3⟩ := ih (mnextg t p.1 p.2) (by rw [hheld]; exact ht)
    rcases hlog with h | ⟨w, h⟩
    · exact ⟨wakes, by rw [hstep, hw1, h], hw2, by rw [hstep]; exact hw3⟩
    · refine ⟨.wakeHavenextg w true :: wakes, ?_, ?_, by rw [hstep]; exact hw3⟩
      · rw [hstep, hw1, h, ht]
        simp
      · intro e he
        rcases List.mem_cons.mp he with rfl | he
        · exact ⟨w, rfl⟩
        · exact hw2 e he

/-- C5 (amended): in a critical section made of any sequence of `mnextg`
hand-offs, the deferred wakeup drained by `schedunlock` is issued only after
the lock is released and there is at most one such post-unlock wakeup; but
every havenextg wakeup issued inside the hand-off sequence itself (one per
hand-off to a waiting worker beyond the first deferred one) happens while
the lock is still held. -/
theorem mwakeup_spec (s : Sched) (hs : List (Nat × Nat)) :
    ∃ (wakesUL : List Event) (tail : List Event),
      (criticalSection s hs).log =
        s.log ++ [Event.lockSched] ++ wakesUL ++ [Event.unlockSched] ++ tail ∧
      (∀ e ∈ wakesUL, ∃ mid, e = Event.wakeHavenextg mid true) ∧
      (tail = [] ∨ ∃ mid, tail = [Event.wakeHavenextg mid false]) ∧
      tail.length ≤ 1 := by
  obtain ⟨wakes, hw1, hw2, hw3⟩ := runHandoffs_log hs (schedlock s) (by simp [schedlock, emit])
  have hlog : (runHandoffs (schedlock s) hs).log = s.log ++ [Event.lockSched] ++ wakes := by
    rw [hw1]; simp [schedlock, emit]
  unfold criticalSection schedunlock
  cases hm : (runHandoffs (schedlock s) hs).mwakeup with
  | none =>
    refine ⟨wakes, [], ?_, hw2, Or.inl rfl, by simp⟩
    simp [emit, hlog]
  | some mid =>
    refine ⟨wakes, [Event.wakeHavenextg mid false], ?_, hw2, Or.inr ⟨mid, rfl⟩, by simp⟩
    simp [emit, hlog]

/-! ### The status switch of `schedule` (C6) -/

def exceptOk {α β : Type} : Except α β → Bool
  | .ok _ => true
  | .error _ => false

/-- A state whose task 1 is in `Gsyscall` (mcpu = 1, mcpumax = 1). -/
def schedC6 : Sched :=
  { sched0 with atomic := 32769,
                gs := fun i => if i = 1 then { g0st with status := .Gsyscall } else g0st,
                gcount := 2, grunning := 1 }

/-- C6 counterexample: a prev task whose status is `Gsyscall` — a status
other than running and moribund, which the claim says must be a fatal
invariant violation — passes through `schedule`'s status switch with no
throw: `scheduleStep` returns `.ok`. -/
theorem schedule_status_counterexample :
    (schedC6.gs 1).status = Gstatus.Gsyscall ∧
    (schedC6.gs 1).status ≠ Gstatus.Grunning ∧
    (schedC6.gs 1).status ≠ Gstatus.Gmoribund ∧
    exceptOk (scheduleStep schedC6 0 1) = true := by decide

theorem sss_bad (s : Sched) (cur gid : Nat)
    (h : (s.gs gid).status = .Grunnable ∨ (s.gs gid).status = .Gdead) :
    scheduleStatusSwitch s cur gid = .error .badGpStatusInSched := by
  unfold scheduleStatusSwitch
  rcases h with h | h <;> rw [h]

theorem sss_fallthrough (s : Sched) (cur gid : Nat)
    (h : (s.gs gid).status = .Gsyscall ∨ (s.gs gid).status = .Gwaiting ∨
      (s.gs gid).status = .Gidle) :
    scheduleStatusSwitch s cur gid = .ok (false, s) := by
  unfold scheduleStatusSwitch
  rcases h with h | h | h <;> rw [h]

theorem sss_running (s : Sched) (cur gid : Nat) (t : Sched)
    (h : (s.gs gid).status = .Grunning)
    (hput : gput (setG s gid { s.gs gid with status := .Grunnable }) gid = .ok t) :
    scheduleStatusSwitch s cur gid = .ok (false, t) := by
  unfold scheduleStatusSwitch
  rw [h]
  dsimp only
  rw [hput]
  rfl

theorem sss_moribund (s : Sched) (cur gid : Nat)
    (h : (s.gs gid).status = .Gmoribund) (hlk : (s.gs gid).lockedm = none)
    (hgc : ¬ s.gcount - 1 = 0) :
    ∃ t, scheduleStatusSwitch s cur gid = .ok (false, t) ∧
      (t.gs gid).status = .Gdead ∧
      t.gfree = gid :: s.gfree ∧
      (t.gs gid).readyonstop = (s.gs gid).readyonstop := by
  unfold scheduleStatusSwitch
  rw [h]
  dsimp only
  simp only [setG]
  simp [hlk, hgc]

/-- The state after `schedule`'s prologue on `gp`: lock taken, `gp->m = nil`,
`grunning--`, `mcpu--` (no underflow under the hypotheses of
`scheduleStep_eq`). -/
def stepMid (s : Sched) (gid : Nat) : Sched :=
  { s with lockHeld := true, log := s.log ++ [.lockSched],
           gs := fun i => if i = gid then { s.gs gid with m := none } else s.gs i,
           grunning := s.grunning - 1,
           atomic := s.atomic - 1 }

theorem scheduleStep_eq (s : Sched) (cur gid : Nat) (hpre : s.predawn = false)
    (hwf : s.atomic < 2 ^ 32) (hpos : 0 < atomic_mcpu s.atomic)
    (hmax : atomic_mcpu s.atomic ≤ maxgomaxprocs) :
    scheduleStep s cur gid =
      (do
        let (exited, s2) ← scheduleStatusSwitch (stepMid s gid) cur gid
        if exited then .ok s2
        else
          if (s2.gs gid).readyonstop then
            readylocked (setG s2 gid { s2.gs gid with readyonstop := false }) cur gid
          else .ok s2) := by
  obtain ⟨hx, hm1, hm2, hm3, hm4⟩ := xadd_dec_mcpu s.atomic hwf hpos
  unfold scheduleStep stepMid
  dsimp only [schedlock, emit, setG]
  rw [hpre]
  rw [if_neg Bool.false_ne_true]
  rw [hx]
  rw [if_neg (by rw [hm1]; omega)]

/-- Helper: on the FIFO-append path (not wired, not an idle task), `gput`
succeeds and appends to the tail, leaving the task maps alone. -/
theorem gput_append (s : Sched) (gid : Nat)
    (hlk : (s.gs gid).lockedm = none) (hidle : (s.gs gid).idlem = none) :
    ∃ t, gput s gid = .ok t ∧
      t.ghead = s.ghead ++ [gid] ∧ t.gs = s.gs ∧ t.gwait = s.gwait + 1 ∧
      t.predawn = s.predawn ∧ t.ms = s.ms ∧ t.gfree = s.gfree ∧ t.gcount = s.gcount ∧
      t.gomaxprocs = s.gomaxprocs ∧ t.log = s.log ∧ t.mhead = s.mhead ∧
      (t.atomic = s.atomic ∨
        t.atomic = xadd s.atomic ((1 <<< gwaitingShift : Nat) : Int)) := by
  unfold gput gputQueue
  rw [hlk, hidle]
  dsimp only
  by_cases hz : s.gwait = 0
  · rw [if_pos hz]
    exact ⟨_, rfl, rfl, rfl, rfl, rfl, rfl, rfl, rfl, rfl, rfl, rfl, Or.inr rfl⟩
  · rw [if_neg hz]
    exact ⟨_, rfl, rfl, rfl, rfl, rfl, rfl, rfl, rfl, rfl, rfl, rfl, Or.inl rfl⟩

/-- C6 (amended): for a non-nil prev task, `schedule` reports the fatal
"bad gp->status" violation exactly when the status is runnable or dead;
running tasks are requeued as runnable on the FIFO tail, moribund tasks are
transitioned to dead and pushed on the free list, and every other status
(in-syscall, waiting, idle) falls through the switch with no fatal error. -/
theorem schedule_prev_status_spec (s : Sched) (cur gid : Nat)
    (hpre : s.predawn = false) (hwf : s.atomic < 2 ^ 32)
    (hpos : 0 < atomic_mcpu s.atomic) (hmax : atomic_mcpu s.atomic ≤ maxgomaxprocs)
    (hlk : (s.gs gid).lockedm = none) (hidle : (s.gs gid).idlem = none)
    (hros : (s.gs gid).readyonstop = false) (hgc : s.gcount ≠ 1) :
    ((s.gs gid).status = .Grunnable ∨ (s.gs gid).status = .Gdead →
      scheduleStep s cur gid = .error .badGpStatusInSched) ∧
    ((s.gs gid).status = .Grunning →
      ∃ s', scheduleStep s cur gid = .ok s' ∧
        (s'.gs gid).status = .Grunnable ∧ s'.ghead = s.ghead ++ [gid]) ∧
    ((s.gs gid).status = .Gmoribund →
      ∃ s', scheduleStep s cur gid = .ok s' ∧
        (s'.gs gid).status = .Gdead ∧ s'.gfree = gid :: s.gfree) ∧
    ((s.gs gid).status = .Gsyscall ∨ (s.gs gid).status = .Gwaiting ∨
       (s.gs gid).status = .Gidle →
      ∃ s', scheduleStep s cur gid = .ok s' ∧
        (s'.gs gid).status = (s.gs gid).status) := by
  have heq := scheduleStep_eq s cur gid hpre hwf hpos hmax
  have hmid_gs : (stepMid s gid).gs gid = { s.gs gid with m := none } := by
    simp [stepMid]
  refine ⟨?_, ?_, ?_, ?_⟩
  · intro h
    rw [heq, sss_bad (stepMid s gid) cur gid (by rw [hmid_gs]; exact h)]
    rfl
  · intro h
    obtain ⟨t, hput, ht1, ht2, -, -, -, -, -, -, -, -, -⟩ :=
      gput_append (setG (stepMid s gid) gid { (stepMid s gid).gs gid with status := .Grunnable })
        gid (by simp [setG, hmid_gs, hlk]) (by simp [setG, hmid_gs, hidle])
    rw [heq, sss_running (stepMid s gid) cur gid t (by rw [hmid_gs]; exact h) hput]
    have hros' : (t.gs gid).readyonstop = false := by
      rw [ht2]
      simp [setG, hmid_gs, hros]
    refine ⟨t, ?_, ?_, ?_⟩
    · show Except.bind (Except.ok (false, t)) _ = Except.ok t
      dsimp only [Except.bind]
      rw [if_neg Bool.false_ne_true, hros', if_neg Bool.false_ne_true]
    · rw [ht2]
      simp [setG, hmid_gs]
    · rw [ht1]
      simp [setG, stepMid]
  · intro h
    obtain ⟨t, hsw, ht1, ht2, ht3⟩ :=
      sss_moribund (stepMid s gid) cur gid (by rw [hmid_gs]; exact h)
        (by rw [hmid_gs]; simp [hlk])
        (by simp [stepMid]; omega)
    rw [heq, hsw]
    have hros' : (t.gs gid).readyonstop = false := by rw [ht3, hmid_gs]; exact hros
    refine ⟨t, ?_, ht1, ?_⟩
    · show Except.bind (Except.ok (false, t)) _ = Except.ok t
      dsimp only [Except.bind]
      rw [if_neg Bool.false_ne_true, hros', if_neg Bool.false_ne_true]
    · rw [ht2]
      simp [stepMid]
  · intro h
    rw [heq, sss_fallthrough (stepMid s gid) cur gid (by rw [hmid_gs]; exact h)]
    have hros' : ((stepMid s gid).gs gid).readyonstop = false := by rw [hmid_gs]; exact hros
    refine ⟨stepMid s gid, ?_, by rw [hmid_gs]⟩
    show Except.bind (Except.ok (false, stepMid s gid)) _ = Except.ok (stepMid s gid)
    dsimp only [Except.bind]
    rw [if_neg Bool.false_ne_true, hros', if_neg Bool.false_ne_true]

/-- Witness for the amended C6 at the concrete state `schedC6`. -/
theorem schedule_prev_status_spec_witness :
    (schedC6.predawn = false ∧ schedC6.atomic < 2 ^ 32 ∧
     0 < atomic_mcpu schedC6.atomic ∧ atomic_mcpu schedC6.atomic ≤ maxgomaxprocs ∧
     (schedC6.gs 1).lockedm = none ∧ (schedC6.gs 1).idlem = none ∧
     (schedC6.gs 1).readyonstop = false ∧ schedC6.gcount ≠ 1) ∧
    (((schedC6.gs 1).status = .Grunnable ∨ (schedC6.gs 1).status = .Gdead →
      scheduleStep schedC6 0 1 = .error .badGpStatusInSched) ∧
    ((schedC6.gs 1).status = .Grunning →
      ∃ s', scheduleStep schedC6 0 1 = .ok s' ∧
        (s'.gs 1).status = .Grunnable ∧ s'.ghead = schedC6.ghead ++ [1]) ∧
    ((schedC6.gs 1).status = .Gmoribund →
      ∃ s', scheduleStep schedC6 0 1 = .ok s' ∧
        (s'.gs 1).status = .Gdead ∧ s'.gfree = 1 :: schedC6.gfree) ∧
    ((schedC6.gs 1).status = .Gsyscall ∨ (schedC6.gs 1).status = .Gwaiting ∨
       (schedC6.gs 1).status = .Gidle →
      ∃ s', scheduleStep schedC6 0 1 = .ok s' ∧
        (s'.gs 1).status = (schedC6.gs 1).status)) :=
  ⟨⟨by decide, by decide, by decide, by decide, by decide, by decide, by decide, by decide⟩,
   schedule_prev_status_spec schedC6 0 1 (by decide) (by decide) (by decide) (by decide)
     (by decide) (by decide) (by decide) (by decide)⟩

/-! ### Draining lemmas for the `matchmg` loop -/

/-- The loop variant of `matchmg`: entries in the run queue plus the current
worker's pending idle task. -/
def mmeasure (s : Sched) (cur : Nat) : Nat :=
  s.ghead.length + (if (s.ms cur).idleg.isSome then 1 else 0)

/-- Toggling the top (gwaiting) bit leaves mcpu, mcpumax and waitstop
unchanged. -/
theorem xadd_top_bit_fields (v : Nat) (d : Int) (hv : v < 2 ^ 32)
    (hd : d = ((1 <<< gwaitingShift : Nat) : Int) ∨ d = -((1 <<< gwaitingShift : Nat) : Int)) :
    atomic_mcpu (xadd v d) = atomic_mcpu v ∧
    atomic_mcpumax (xadd v d) = atomic_mcpumax v ∧
    atomic_waitstop (xadd v d) = atomic_waitstop v := by
  obtain ⟨heq, -⟩ := xadd_top_bit v d hv hd
  rw [heq]
  split <;>
    refine ⟨?_, ?_, ?_⟩ <;>
      simp only [atomic_mcpu_eq, atomic_mcpumax_eq, atomic_waitstop_eq] <;> omega

theorem gget_cases (s : Sched) (cur : Nat) (hwf : s.atomic < 2 ^ 32) :
    (haveg s cur = false ∧ gget s cur = (none, s)) ∨
    (∃ g s2, gget s cur = (some g, s2) ∧
      s2.atomic < 2 ^ 32 ∧
      atomic_mcpu s2.atomic = atomic_mcpu s.atomic ∧
      atomic_mcpumax s2.atomic = atomic_mcpumax s.atomic ∧
      atomic_waitstop s2.atomic = atomic_waitstop s.atomic ∧
      s2.gomaxprocs = s.gomaxprocs ∧
      s2.predawn = s.predawn ∧
      s2.log = s.log ∧
      s2.gs = s.gs ∧
      mmeasure s2 cur + 1 = mmeasure s cur) := by
  unfold gget
  cases hh : s.ghead with
  | cons g rest =>
    dsimp only
    by_cases hz : s.gwait - 1 = 0
    · rw [if_pos hz]
      right
      refine ⟨g, _, rfl, ?_, ?_, ?_, ?_, rfl, rfl, rfl, rfl, ?_⟩
      · exact (xadd_top_bit s.atomic _ hwf (Or.inr rfl)).2
      · exact (xadd_top_bit_fields s.atomic _ hwf (Or.inr rfl)).1
      · exact (xadd_top_bit_fields s.atomic _ hwf (Or.inr rfl)).2.1
      · exact (xadd_top_bit_fields s.atomic _ hwf (Or.inr rfl)).2.2
      · unfold mmeasure
        simp only [hh, List.length_cons]
        omega
    · rw [if_neg hz]
      right
      refine ⟨g, _, rfl, hwf, rfl, rfl, rfl, rfl, rfl, rfl, rfl, ?_⟩
      unfold mmeasure
      simp only [hh, List.length_cons]
      omega
  | nil =>
    dsimp only
    cases hidle : (s.ms cur).idleg with
    | some g =>
      right
      refine ⟨g, _, rfl, hwf, rfl, rfl, rfl, rfl, rfl, rfl, rfl, ?_⟩
      unfold mmeasure
      simp [setM, hh, hidle]
    | none =>
      left
      refine ⟨?_, rfl⟩
      unfold haveg
      rw [hh]
      simp [hidle]

/-- One combined induction over the fuel: the `matchmg` loop always returns
`.ok`; it preserves mcpumax, waitstop, gomaxprocs, predawn, the task map and
the 32-bit bound; it keeps `mcpu ≤ mcpumax`; it is the identity when at or
over the cap is reached immediately; it only appends to the log; and, given
enough fuel, it stops only once the queue is drained or the cap is hit. -/
theorem matchmgAux_props :
    ∀ (fuel : Nat) (s : Sched) (cur : Nat), s.atomic < 2 ^ 32 →
    ∃ s', matchmgAux fuel s cur = .ok s' ∧
      s'.atomic < 2 ^ 32 ∧
      atomic_mcpumax s'.atomic = atomic_mcpumax s.atomic ∧
      atomic_waitstop s'.atomic = atomic_waitstop s.atomic ∧
      (atomic_mcpu s.atomic ≤ atomic_mcpumax s.atomic →
        atomic_mcpu s'.atomic ≤ atomic_mcpumax s.atomic) ∧
      (atomic_mcpumax s.atomic ≤ atomic_mcpu s.atomic → s' = s) ∧
      s'.gomaxprocs = s.gomaxprocs ∧
      s'.predawn = s.predawn ∧
      s'.gs = s.gs ∧
      (∃ ext, s'.log = s.log ++ ext) ∧
      (mmeasure s cur < fuel →
        ¬(haveg s' cur = true ∧ atomic_mcpu s'.atomic < atomic_mcpumax s'.atomic)) := by
  intro fuel
  induction fuel with
  | zero =>
    intro s cur hwf
    exact ⟨s, rfl, hwf, rfl, rfl, fun h => h, fun _ => rfl, rfl, rfl, rfl,
      ⟨[], by simp⟩, fun h => absurd h (by omega)⟩
  | succ n ih =>
    intro s cur hwf
    simp only [matchmgAux]
    by_cases hg : haveg s cur
    · rw [if_pos hg]
      rcases canaddmcpu_cases s.atomic hwf with ⟨hlt, hc, hf1, hf2, hf3, hf4, hlt2⟩ |
        ⟨hge, hc⟩
      · -- canaddmcpu succeeded: pop a task and hand it to a worker.
        rw [hc]
        dsimp only
        have hwf1 : ({ s with atomic := s.atomic + 1 } : Sched).atomic < 2 ^ 32 := hlt2
        rcases gget_cases { s with atomic := s.atomic + 1 } cur hwf1 with
          ⟨hgf, -⟩ | ⟨g, s2, hgg, hq1, hq2, hq3, hq4, hq5, hq6, hq7, hq8, hq9⟩
        · exact absurd (show haveg { s with atomic := s.atomic + 1 } cur = true from hg)
            (by rw [hgf]; simp)
        · rw [hgg]
          dsimp only
          dsimp only at hq2 hq3 hq4 hq5 hq6 hq7 hq8
          have hms : mmeasure { s with atomic := s.atomic + 1 } cur = mmeasure s cur := rfl
          rw [hms] at hq9
          cases hmg : mget s2 g with
          | mk mo s3 =>
            obtain ⟨hg1, hg2, hg3, hg4, hg5, hg6, hg7, hg8⟩ := mget_frame s2 g
            rw [hmg] at hg1 hg2 hg3 hg4 hg5 hg6 hg7 hg8
            dsimp only at hg1 hg2 hg3 hg4 hg5 hg6 hg7 hg8
            cases mo with
            | some mid =>
              dsimp only
              obtain ⟨hn1, hn2, hn3, hn4, hn5, hn6, hn7, hn8⟩ := mnextg_frame s3 mid g
              obtain ⟨hnl, -⟩ := mnextg_log s3 mid g
              have hwf3 : (mnextg s3 mid g).atomic < 2 ^ 32 := by rw [hn1, hg1]; exact hq1
              obtain ⟨s', hrec, hp1, hp2, hp3, hp4, hp5, hp6, hp7, hp8, hp9, hp10⟩ :=
                ih (mnextg s3 mid g) cur hwf3
              have hta : (mnextg s3 mid g).atomic = s2.atomic := by rw [hn1, hg1]
              refine ⟨s', hrec, hp1, ?_, ?_, ?_, ?_, ?_, ?_, ?_, ?_, ?_⟩
              · rw [hp2, hta, hq3, hf2]
              · rw [hp3, hta, hq4, hf3]
              · intro hle
                have hstep := hp4 (by rw [hta, hq2, hq3, hf1, hf2]; omega)
                rw [hta, hq3, hf2] at hstep
                exact hstep
              · intro hgt
                exact absurd hlt (by omega)
              · rw [hp6, hn5, hg5, hq5]
              · rw [hp7, hn6, hg6, hq6]
              · rw [hp8, hn4, hg4, hq8]
              · obtain ⟨ext, hext⟩ := hp9
                rcases hnl with h | ⟨w, h⟩
                · exact ⟨ext, by rw [hext, h, hg8, hq7]⟩
                · refine ⟨Event.wakeHavenextg w s3.lockHeld :: ext, ?_⟩
                  rw [hext, h, hg8, hq7]
                  simp
              · intro hmea
                have hm3 : mmeasure (mnextg s3 mid g) cur = mmeasure s3 cur := by
                  unfold mmeasure
                  rw [hn3, hn8 cur]
                have hm2 : mmeasure s3 cur = mmeasure s2 cur := by
                  unfold mmeasure
                  rw [hg3, hg7]
                exact hp10 (by omega)
            | none =>
              dsimp only
              obtain ⟨mid, s4, hmn⟩ : ∃ a b, mnew s3 = (a, b) := ⟨_, _, rfl⟩
              rw [hmn]
              dsimp only
              obtain ⟨hw1, hw2, hw3, hw4, hw5, hw6, hw7, hw8⟩ := mnew_frame s3
              rw [hmn] at hw1 hw2 hw3 hw4 hw5 hw6 hw7 hw8
              dsimp only at hw1 hw2 hw3 hw4 hw5 hw6 hw7 hw8
              obtain ⟨hn1, hn2, hn3, hn4, hn5, hn6, hn7, hn8⟩ := mnextg_frame s4 mid g
              obtain ⟨hnl, -⟩ := mnextg_log s4 mid g
              have hwf3 : (mnextg s4 mid g).atomic < 2 ^ 32 := by
                rw [hn1, hw1, hg1]; exact hq1
              obtain ⟨s', hrec, hp1, hp2, hp3, hp4, hp5, hp6, hp7, hp8, hp9, hp10⟩ :=
                ih (mnextg s4 mid g) cur hwf3
              have hta : (mnextg s4 mid g).atomic = s2.atomic := by rw [hn1, hw1, hg1]
              refine ⟨s', hrec, hp1, ?_, ?_, ?_, ?_, ?_, ?_, ?_, ?_, ?_⟩
              · rw [hp2, hta, hq3, hf2]
              · rw [hp3, hta, hq4, hf3]
              · intro hle
                have hstep := hp4 (by rw [hta, hq2, hq3, hf1, hf2]; omega)
                rw [hta, hq3, hf2] at hstep
                exact hstep
              · intro hgt
                exact absurd hlt (by omega)
              · rw [hp6, hn5, hw5, hg5, hq5]
              · rw [hp7, hn6, hw6, hg6, hq6]
              · rw [hp8, hn4, hw4, hg4, hq8]
              · obtain ⟨ext, hext⟩ := hp9
                rcases hnl with h | ⟨w, h⟩
                · refine ⟨Event.newOSProc s3.mcount :: ext, ?_⟩
                  rw [hext, h, hw7, hg8, hq7]
                  simp
                · refine ⟨Event.newOSProc s3.mcount :: Event.wakeHavenextg w s4.lockHeld ::
                    ext, ?_⟩
                  rw [hext, h, hw7, hg8, hq7]
                  simp
              · intro hmea
                have hm3 : mmeasure (mnextg s4 mid g) cur = mmeasure s4 cur := by
                  unfold mmeasure
                  rw [hn3, hn8 cur]
                have hm4 : mmeasure s4 cur ≤ mmeasure s3 cur := by
                  unfold mmeasure
                  rw [hw3]
                  rcases hw8 cur with h | h
                  · rw [h]
                    simp
                  · rw [h]
                have hm2 : mmeasure s3 cur = mmeasure s2 cur := by
                  unfold mmeasure
                  rw [hg3, hg7]
                exact hp10 (by omega)
      · -- canaddmcpu failed (mcpu >= mcpumax): the loop exits at once.
        rw [hc]
        dsimp only
        refine ⟨s, rfl, hwf, rfl, rfl, fun h => h, fun _ => rfl, rfl, rfl, rfl,
          ⟨[], by simp⟩, fun _ hcon => ?_⟩
        exact absurd hcon.2 (by omega)
    · rw [if_neg hg]
      refine ⟨s, rfl, hwf, rfl, rfl, fun h => h, fun _ => rfl, rfl, rfl, rfl,
        ⟨[], by simp⟩, fun _ hcon => ?_⟩
      exact absurd hcon.1 hg
/-- `matchmg` outside malloc/gc: `.ok`, with the loop run to completion. -/
theorem matchmg_props (s : Sched) (cur : Nat) (hwf : s.atomic < 2 ^ 32)
    (hma : (s.ms cur).mallocing = false) (hgc : (s.ms cur).gcing = false) :
    ∃ s', matchmg s cur = .ok s' ∧
      s'.atomic < 2 ^ 32 ∧
      atomic_mcpumax s'.atomic = atomic_mcpumax s.atomic ∧
      atomic_waitstop s'.atomic = atomic_waitstop s.atomic ∧
      (atomic_mcpu s.atomic ≤ atomic_mcpumax s.atomic →
        atomic_mcpu s'.atomic ≤ atomic_mcpumax s.atomic) ∧
      s'.gomaxprocs = s.gomaxprocs ∧
      s'.predawn = s.predawn ∧
      s'.gs = s.gs ∧
      (∃ ext, s'.log = s.log ++ ext) ∧
      ¬(haveg s' cur = true ∧ atomic_mcpu s'.atomic < atomic_mcpumax s'.atomic) := by
  unfold matchmg
  rw [hma, hgc]
  rw [if_neg (by simp)]
  obtain ⟨s', h1, h2, h3, h4, h5, h6, h7, h8, h9, h10, h11⟩ :=
    matchmgAux_props (s.ghead.length + 2) s cur hwf
  have hmea : mmeasure s cur < s.ghead.length + 2 := by
    unfold mmeasure
    split <;> omega
  exact ⟨s', h1, h2, h3, h4, h5, h7, h8, h9, h10, h11 hmea⟩

theorem schedunlock_frame (t : Sched) :
    ∃ ext, (schedunlock t).log = t.log ++ ext ∧
      (schedunlock t).gs = t.gs ∧
      (schedunlock t).atomic = t.atomic ∧
      (schedunlock t).ghead = t.ghead ∧
      (schedunlock t).ms = t.ms ∧
      (schedunlock t).gwait = t.gwait ∧
      (schedunlock t).gomaxprocs = t.gomaxprocs ∧
      (schedunlock t).predawn = t.predawn := by
  unfold schedunlock
  cases t.mwakeup <;> simp [emit]

/-- The state after `entersyscall`'s status write and mcpu decrement. -/
def essBase (s : Sched) (gid : Nat) : Sched :=
  { setG s gid { s.gs gid with status := .Gsyscall } with atomic := s.atomic - 1 }

/-- Control-flow reduction of `entersyscall` outside predawn with a positive
mcpu field (so the decrement does not wrap). -/
theorem entersyscall_eq (s : Sched) (cur gid : Nat)
    (hpre : s.predawn = false) (hwf : s.atomic < 2 ^ 32) (hpos : 0 < atomic_mcpu s.atomic) :
    entersyscall s cur gid =
      (if atomic_gwaiting (s.atomic - 1) = 0 ∧ (atomic_waitstop (s.atomic - 1) = 0 ∨
          atomic_mcpumax (s.atomic - 1) < atomic_mcpu (s.atomic - 1)) then
        .ok (essBase s gid)
      else do
        let s ← if atomic_gwaiting (schedlock (essBase s gid)).atomic = 1 then
            matchmg (schedlock (essBase s gid)) cur
          else pure (schedlock (essBase s gid))
        let s : Sched :=
          if atomic_waitstop s.atomic = 1 ∧ atomic_mcpu s.atomic ≤ atomic_mcpumax s.atomic
          then emit { s with atomic := xadd s.atomic (-((1 <<< waitstopShift : Nat) : Int)) }
            .wakeStopped
          else s
        .ok (schedunlock s)) := by
  obtain ⟨hx, -, -, -, -⟩ := xadd_dec_mcpu s.atomic hwf hpos
  unfold entersyscall essBase
  rw [hpre, if_neg Bool.false_ne_true]
  dsimp only
  rw [show (setG s gid { s.gs gid with status := Gstatus.Gsyscall }).atomic = s.atomic
    from rfl]
  rw [hx]

/-- Slow path with gwaiting set: `matchmg` runs, then the waitstop check. -/
theorem entersyscall_slow_match (s : Sched) (cur gid : Nat)
    (hpre : s.predawn = false) (hwf : s.atomic < 2 ^ 32) (hpos : 0 < atomic_mcpu s.atomic)
    (hcond : ¬(atomic_gwaiting (s.atomic - 1) = 0 ∧ (atomic_waitstop (s.atomic - 1) = 0 ∨
        atomic_mcpumax (s.atomic - 1) < atomic_mcpu (s.atomic - 1))))
    (hb : atomic_gwaiting (s.atomic - 1) = 1)
    (t : Sched) (hmm : matchmg (schedlock (essBase s gid)) cur = .ok t) :
    entersyscall s cur gid = .ok (schedunlock
      (if atomic_waitstop t.atomic = 1 ∧ atomic_mcpu t.atomic ≤ atomic_mcpumax t.atomic
       then emit { t with atomic := xadd t.atomic (-((1 <<< waitstopShift : Nat) : Int)) }
         .wakeStopped
       else t)) := by
  rw [entersyscall_eq s cur gid hpre hwf hpos, if_neg hcond]
  rw [show (schedlock (essBase s gid)).atomic = s.atomic - 1 from rfl]
  rw [if_pos hb, hmm]
  rfl

/-- Slow path with gwaiting clear: only the waitstop check runs. -/
theorem entersyscall_slow_nomatch (s : Sched) (cur gid : Nat)
    (hpre : s.predawn = false) (hwf : s.atomic < 2 ^ 32) (hpos : 0 < atomic_mcpu s.atomic)
    (hcond : ¬(atomic_gwaiting (s.atomic - 1) = 0 ∧ (atomic_waitstop (s.atomic - 1) = 0 ∨
        atomic_mcpumax (s.atomic - 1) < atomic_mcpu (s.atomic - 1))))
    (hb : ¬atomic_gwaiting (s.atomic - 1) = 1) :
    entersyscall s cur gid = .ok (schedunlock
      (if atomic_waitstop (s.atomic - 1) = 1 ∧
          atomic_mcpu (s.atomic - 1) ≤ atomic_mcpumax (s.atomic - 1)
       then emit { schedlock (essBase s gid) with
         atomic := xadd (s.atomic - 1) (-((1 <<< waitstopShift : Nat) : Int)) } .wakeStopped
       else schedlock (essBase s gid))) := by
  rw [entersyscall_eq s cur gid hpre hwf hpos, if_neg hcond]
  rw [show (schedlock (essBase s gid)).atomic = s.atomic - 1 from rfl]
  rw [if_neg hb]
  rfl

/-- C2: `entersyscall` outside predawn decrements exactly the mcpu field of
the atomic word; it returns without acquiring the scheduler lock exactly
when, in the post-decrement word, gwaiting is clear and it is not the case
that waitstop is set with `mcpu ≤ mcpumax` (the fast-path result is the
original state with only the task status and the word changed, so no lock or
note activity happens); on the slow path it takes the lock, runs `matchmg`
to completion when gwaiting is set (afterwards the run queue is drained or
the cap is reached), and clears waitstop and wakes the stopped note when
waitstop is set with `mcpu ≤ mcpumax`. -/
theorem entersyscall_spec (s : Sched) (cur gid : Nat)
    (hpre : s.predawn = false)
    (hwf : s.atomic < 2 ^ 32)
    (hpos : 0 < atomic_mcpu s.atomic)
    (hma : (s.ms cur).mallocing = false)
    (hgc : (s.ms cur).gcing = false) :
    xadd s.atomic (-((1 <<< mcpuShift : Nat) : Int)) = s.atomic - 1 ∧
    atomic_mcpu (s.atomic - 1) = atomic_mcpu s.atomic - 1 ∧
    atomic_mcpumax (s.atomic - 1) = atomic_mcpumax s.atomic ∧
    atomic_waitstop (s.atomic - 1) = atomic_waitstop s.atomic ∧
    atomic_gwaiting (s.atomic - 1) = atomic_gwaiting s.atomic ∧
    ((atomic_gwaiting (s.atomic - 1) = 0 ∧
        (atomic_waitstop (s.atomic - 1) = 0 ∨
          atomic_mcpumax (s.atomic - 1) < atomic_mcpu (s.atomic - 1))) →
      entersyscall s cur gid = .ok (essBase s gid)) ∧
    (¬(atomic_gwaiting (s.atomic - 1) = 0 ∧
        (atomic_waitstop (s.atomic - 1) = 0 ∨
          atomic_mcpumax (s.atomic - 1) < atomic_mcpu (s.atomic - 1))) →
      ∃ s', entersyscall s cur gid = .ok s' ∧
        (∃ ext, s'.log = s.log ++ Event.lockSched :: ext) ∧
        (s'.gs gid).status = .Gsyscall ∧
        (atomic_gwaiting (s.atomic - 1) = 1 →
          ¬(haveg s' cur = true ∧ atomic_mcpu s'.atomic < atomic_mcpumax s'.atomic)) ∧
        (atomic_waitstop (s.atomic - 1) = 1 ∧
            atomic_mcpu (s.atomic - 1) ≤ atomic_mcpumax (s.atomic - 1) →
          atomic_waitstop s'.atomic = 0 ∧ Event.wakeStopped ∈ s'.log)) := by
  obtain ⟨hx, hd1, hd2, hd3, hd4⟩ := xadd_dec_mcpu s.atomic hwf hpos
  have hwfv : s.atomic - 1 < 2 ^ 32 := by omega
  have hslog : (schedlock (essBase s gid)).log = s.log ++ [Event.lockSched] := by
    simp [schedlock, emit, essBase, setG]
  have hsgs : ((schedlock (essBase s gid)).gs gid).status = Gstatus.Gsyscall := by
    simp [schedlock, emit, essBase, setG]
  refine ⟨hx, hd1, hd2, hd3, hd4, ?_, ?_⟩
  · intro hcond
    rw [entersyscall_eq s cur gid hpre hwf hpos, if_pos hcond]
  · intro hcond
    by_cases hb : atomic_gwaiting (s.atomic - 1) = 1
    · obtain ⟨t, hmm, hm1, hm2, hm3, hm4, hm5, hm6, hm7, hm8, hm9⟩ :=
        matchmg_props (schedlock (essBase s gid)) cur hwfv hma hgc
      have hrun := entersyscall_slow_match s cur gid hpre hwf hpos hcond hb t hmm
      rw [show (schedlock (essBase s gid)).atomic = s.atomic - 1 from rfl] at hm2 hm3 hm4
      obtain ⟨ext1, hext1⟩ := hm8
      rw [hslog] at hext1
      by_cases hws : atomic_waitstop t.atomic = 1 ∧
          atomic_mcpu t.atomic ≤ atomic_mcpumax t.atomic
      · rw [if_pos hws] at hrun
        obtain ⟨hc0, hc1, hc2, hc3, hc4⟩ := xadd_clear_waitstop t.atomic hm1 hws.1
        obtain ⟨ext2, hu1, hu2, hu3, hu4, hu5, hu6, hu7, hu8⟩ :=
          schedunlock_frame
            (emit { t with atomic := xadd t.atomic (-((1 <<< waitstopShift : Nat) : Int)) }
              .wakeStopped)
        refine ⟨_, hrun, ?_, ?_, ?_, ?_⟩
        · refine ⟨ext1 ++ [Event.wakeStopped] ++ ext2, ?_⟩
          rw [hu1]
          simp only [emit]
          rw [hext1]
          simp
        · rw [hu2]
          simp only [emit]
          rw [hm7, hsgs]
        · intro _ hcon
          apply hm9
          constructor
          · unfold haveg at hcon ⊢
            rw [hu4, hu5] at hcon
            simpa [emit] using hcon.1
          · rw [hu3] at hcon
            simp only [emit] at hcon
            rw [hc0, hc1, hc2] at hcon
            exact hcon.2
        · intro hv
          constructor
          · rw [hu3]
            simp only [emit]
            rw [hc0, hc3]
          · rw [hu1]
            simp only [emit]
            simp
      · rw [if_neg hws] at hrun
        obtain ⟨ext2, hu1, hu2, hu3, hu4, hu5, hu6, hu7, hu8⟩ := schedunlock_frame t
        refine ⟨_, hrun, ?_, ?_, ?_, ?_⟩
        · refine ⟨ext1 ++ ext2, ?_⟩
          rw [hu1, hext1]
          simp
        · rw [hu2, hm7, hsgs]
        · intro _ hcon
          apply hm9
          unfold haveg at hcon ⊢
          rw [hu4, hu5, hu3] at hcon
          exact hcon
        · intro hv
          exfalso
          apply hws
          exact ⟨by rw [hm3]; exact hv.1, by rw [hm2]; exact hm4 hv.2⟩
    · have hrun := entersyscall_slow_nomatch s cur gid hpre hwf hpos hcond hb
      by_cases hws : atomic_waitstop (s.atomic - 1) = 1 ∧
          atomic_mcpu (s.atomic - 1) ≤ atomic_mcpumax (s.atomic - 1)
      · rw [if_pos hws] at hrun
        obtain ⟨hc0, hc1, hc2, hc3, hc4⟩ := xadd_clear_waitstop _ hwfv hws.1
        obtain ⟨ext2, hu1, hu2, hu3, hu4, hu5, hu6, hu7, hu8⟩ :=
          schedunlock_frame
            (emit { schedlock (essBase s gid) with
              atomic := xadd (s.atomic - 1) (-((1 <<< waitstopShift : Nat) : Int)) }
              .wakeStopped)
        refine ⟨_, hrun, ?_, ?_, ?_, ?_⟩
        · refine ⟨Event.wakeStopped :: ext2, ?_⟩
          rw [hu1]
          simp only [emit]
          rw [hslog]
          simp
        · rw [hu2]
          simp only [emit]
          rw [hsgs]
        · intro hgw
          exact absurd hgw hb
        · intro _
          constructor
          · rw [hu3]
            simp only [emit]
            rw [hc0, hc3]
          · rw [hu1]
            simp only [emit]
            simp
      · rw [if_neg hws] at hrun
        obtain ⟨ext2, hu1, hu2, hu3, hu4, hu5, hu6, hu7, hu8⟩ :=
          schedunlock_frame (schedlock (essBase s gid))
        refine ⟨_, hrun, ?_, ?_, ?_, ?_⟩
        · refine ⟨ext2, ?_⟩
          rw [hu1, hslog]
          simp
        · rw [hu2, hsgs]
        · intro hgw
          exact absurd hgw hb
        · intro hv
          exact absurd hv hws
def schedC2 : Sched := { sched0 with atomic := 32769 }

/-- Witness for C2 at `mcpu = 1, mcpumax = 1`, worker 0, task 1. -/
theorem entersyscall_spec_witness :
    (schedC2.predawn = false ∧ schedC2.atomic < 2 ^ 32 ∧
     0 < atomic_mcpu schedC2.atomic ∧
     (schedC2.ms 0).mallocing = false ∧ (schedC2.ms 0).gcing = false) ∧
    (xadd schedC2.atomic (-((1 <<< mcpuShift : Nat) : Int)) = schedC2.atomic - 1 ∧
    atomic_mcpu (schedC2.atomic - 1) = atomic_mcpu schedC2.atomic - 1 ∧
    atomic_mcpumax (schedC2.atomic - 1) = atomic_mcpumax schedC2.atomic ∧
    atomic_waitstop (schedC2.atomic - 1) = atomic_waitstop schedC2.atomic ∧
    atomic_gwaiting (schedC2.atomic - 1) = atomic_gwaiting schedC2.atomic ∧
    ((atomic_gwaiting (schedC2.atomic - 1) = 0 ∧
        (atomic_waitstop (schedC2.atomic - 1) = 0 ∨
          atomic_mcpumax (schedC2.atomic - 1) < atomic_mcpu (schedC2.atomic - 1))) →
      entersyscall schedC2 0 1 = .ok (essBase schedC2 1)) ∧
    (¬(atomic_gwaiting (schedC2.atomic - 1) = 0 ∧
        (atomic_waitstop (schedC2.atomic - 1) = 0 ∨
          atomic_mcpumax (schedC2.atomic - 1) < atomic_mcpu (schedC2.atomic - 1))) →
      ∃ s', entersyscall schedC2 0 1 = .ok s' ∧
        (∃ ext, s'.log = schedC2.log ++ Event.lockSched :: ext) ∧
        (s'.gs 1).status = .Gsyscall ∧
        (atomic_gwaiting (schedC2.atomic - 1) = 1 →
          ¬(haveg s' 0 = true ∧ atomic_mcpu s'.atomic < atomic_mcpumax s'.atomic)) ∧
        (atomic_waitstop (schedC2.atomic - 1) = 1 ∧
            atomic_mcpu (schedC2.atomic - 1) ≤ atomic_mcpumax (schedC2.atomic - 1) →
          atomic_waitstop s'.atomic = 0 ∧ Event.wakeStopped ∈ s'.log))) :=
  ⟨⟨rfl, by decide, by decide, rfl, rfl⟩,
   entersyscall_spec schedC2 0 1 rfl (by decide) (by decide) rfl rfl⟩

/-- With the cap already reached (`mcpumax ≤ mcpu`), `matchmg` changes
nothing: `canaddmcpu` fails on the first loop test. -/
theorem matchmg_id_over_cap (s : Sched) (cur : Nat)
    (hcap : atomic_mcpumax s.atomic ≤ atomic_mcpu s.atomic) :
    matchmg s cur = .ok s := by
  unfold matchmg
  split
  · rfl
  · rw [show s.ghead.length + 2 = (s.ghead.length + 1) + 1 from by omega]
    simp only [matchmgAux]
    by_cases hg : haveg s cur
    · rw [if_pos hg]
      rw [show canaddmcpu s.atomic = (false, s.atomic) from by
        unfold canaddmcpu; rw [if_pos hcap]]
    · rw [if_neg hg]

/-- The FIFO path of `readylocked` when the cap is already reached: the task
is marked runnable and appended to the queue, and the `matchmg` call is a
no-op, so the task stays queued. -/
theorem readylocked_queue (s : Sched) (cur gid : Nat)
    (hm : (s.gs gid).m = none)
    (hst1 : (s.gs gid).status ≠ .Grunnable)
    (hst2 : (s.gs gid).status ≠ .Grunning)
    (hlk : (s.gs gid).lockedm = none)
    (hidle : (s.gs gid).idlem = none)
    (hpre : s.predawn = false)
    (hwf : s.atomic < 2 ^ 32)
    (hcap : atomic_mcpumax s.atomic ≤ atomic_mcpu s.atomic) :
    ∃ t, readylocked s cur gid = .ok t ∧
      t.ghead = s.ghead ++ [gid] ∧
      (t.gs gid).status = .Grunnable ∧
      (t.gs gid).readyonstop = (s.gs gid).readyonstop ∧
      atomic_mcpu t.atomic = atomic_mcpu s.atomic ∧
      atomic_mcpumax t.atomic = atomic_mcpumax s.atomic := by
  obtain ⟨t, hput, ht1, ht2, ht3, ht4, ht5, ht6, ht7, ht8, ht9, ht10, ht11⟩ :=
    gput_append (setG s gid { s.gs gid with status := .Grunnable }) gid
      (by simp [setG, hlk]) (by simp [setG, hidle])
  have htpre : t.predawn = false := by rw [ht4]; exact hpre
  have hcap' : atomic_mcpumax t.atomic ≤ atomic_mcpu t.atomic ∧
      atomic_mcpu t.atomic = atomic_mcpu s.atomic ∧
      atomic_mcpumax t.atomic = atomic_mcpumax s.atomic := by
    rw [show (setG s gid { s.gs gid with status := Gstatus.Grunnable }).atomic = s.atomic
      from rfl] at ht11
    rcases ht11 with h | h
    · rw [h]
      exact ⟨hcap, rfl, rfl⟩
    · rw [h]
      obtain ⟨hb1, hb2, -⟩ := xadd_top_bit_fields s.atomic _ hwf (Or.inl rfl)
      rw [hb1, hb2]
      exact ⟨hcap, rfl, rfl⟩
  dsimp only at hput ht1 ht2 ht4
  refine ⟨t, ?_, ?_, ?_, ?_, hcap'.2.1, hcap'.2.2⟩
  · unfold readylocked
    dsimp only
    rw [show (s.gs gid).m.isSome = false from by rw [hm]; rfl]
    rw [if_neg Bool.false_ne_true]
    rw [if_neg (by
      simp only [Bool.or_eq_true, decide_eq_true_eq]
      rintro (h | h)
      · exact hst1 h
      · exact hst2 h)]
    rw [hput]
    show (if (!t.predawn) = true then matchmg t cur else Except.ok t) = Except.ok t
    rw [htpre]
    rw [if_pos (show (!false) = true from rfl)]
    exact matchmg_id_over_cap t cur hcap'.1
  · rw [ht1]
    rfl
  · rw [ht2]
    simp [setG]
  · rw [ht2]
    simp [setG]

/-- The FIFO path of `readylocked` in general: the task is marked runnable
and appended to the queue, and the call continues as exactly the `matchmg`
dispatcher loop on the post-`gput` state (whose queue, task map, mcpu and
mcpumax are as stated). -/
theorem readylocked_run (s : Sched) (cur gid : Nat)
    (hm : (s.gs gid).m = none)
    (hst1 : (s.gs gid).status ≠ .Grunnable)
    (hst2 : (s.gs gid).status ≠ .Grunning)
    (hlk : (s.gs gid).lockedm = none)
    (hidle : (s.gs gid).idlem = none)
    (hpre : s.predawn = false)
    (hwf : s.atomic < 2 ^ 32) :
    ∃ q, readylocked s cur gid = matchmg q cur ∧
      q.ghead = s.ghead ++ [gid] ∧
      q.gs = (setG s gid { s.gs gid with status := .Grunnable }).gs ∧
      (q.gs gid).status = .Grunnable ∧
      (q.gs gid).readyonstop = (s.gs gid).readyonstop ∧
      atomic_mcpu q.atomic = atomic_mcpu s.atomic ∧
      atomic_mcpumax q.atomic = atomic_mcpumax s.atomic ∧
      q.atomic < 2 ^ 32 ∧
      q.ms = s.ms := by
  obtain ⟨t, hput, ht1, ht2, ht3, ht4, ht5, ht6, ht7, ht8, ht9, ht10, ht11⟩ :=
    gput_append (setG s gid { s.gs gid with status := .Grunnable }) gid
      (by simp [setG, hlk]) (by simp [setG, hidle])
  have htpre : t.predawn = false := by rw [ht4]; exact hpre
  have hgs := ht2
  have hfields : atomic_mcpu t.atomic = atomic_mcpu s.atomic ∧
      atomic_mcpumax t.atomic = atomic_mcpumax s.atomic ∧
      t.atomic < 2 ^ 32 := by
    rw [show (setG s gid { s.gs gid with status := Gstatus.Grunnable }).atomic = s.atomic
      from rfl] at ht11
    rcases ht11 with h | h
    · rw [h]
      exact ⟨rfl, rfl, hwf⟩
    · rw [h]
      obtain ⟨hb1, hb2, -⟩ := xadd_top_bit_fields s.atomic _ hwf (Or.inl rfl)
      obtain ⟨-, hb4⟩ := xadd_top_bit s.atomic _ hwf (Or.inl rfl)
      exact ⟨hb1, hb2, hb4⟩
  have htms : t.ms = s.ms := by rw [ht5]; rfl
  dsimp only at hput ht1 ht2 ht4
  refine ⟨t, ?_, ?_, hgs, ?_, ?_, hfields.1, hfields.2.1, hfields.2.2, htms⟩
  · unfold readylocked
    dsimp only
    rw [show (s.gs gid).m.isSome = false from by rw [hm]; rfl]
    rw [if_neg Bool.false_ne_true]
    rw [if_neg (by
      simp only [Bool.or_eq_true, decide_eq_true_eq]
      rintro (h | h)
      · exact hst1 h
      · exact hst2 h)]
    rw [hput]
    show (if (!t.predawn) = true then matchmg t cur else Except.ok t) = matchmg t cur
    rw [htpre]
    rw [if_pos (show (!false) = true from rfl)]
  · rw [ht1]
    rfl
  · rw [ht2]
    simp [setG]
  · rw [ht2]
    simp [setG]

/-! ### `exitsyscall` (C3) -/

/-- Control-flow reduction of `exitsyscall` outside predawn with a small
mcpu field (so the increment does not carry into mcpumax). -/
theorem exitsyscall_eq (s : Sched) (cur gid : Nat)
    (hpre : s.predawn = false) (hwf : s.atomic < 2 ^ 32)
    (hmax : atomic_mcpu s.atomic < 2 ^ 15 - 1) :
    exitsyscall s cur gid =
      (if (s.ms cur).profilehz = s.profilehz ∧
          atomic_mcpu (s.atomic + 1) ≤ atomic_mcpumax (s.atomic + 1) then
        .ok (setG { s with atomic := s.atomic + 1 } gid
          { s.gs gid with status := .Grunning })
      else
        scheduleStep (setG { s with atomic := s.atomic + 1 } gid
          { s.gs gid with readyonstop := true }) cur gid) := by
  obtain ⟨hx, -, -, -, -⟩ := xadd_inc_mcpu s.atomic hwf hmax
  unfold exitsyscall
  rw [hpre, if_neg Bool.false_ne_true]
  dsimp only
  rw [hx]

/-- The requeue path of `exitsyscall`: with the cap exceeded after the
increment, the task marks itself ready-on-stop and yields; `schedule`
re-enqueues it as runnable on the FIFO tail, clears the flag, and undoes
exactly the one mcpu increment. -/
theorem exitsyscall_requeue (s : Sched) (cur gid : Nat)
    (hpre : s.predawn = false)
    (hwf : s.atomic < 2 ^ 32)
    (hmax : atomic_mcpu s.atomic < maxgomaxprocs)
    (hst : (s.gs gid).status = .Gsyscall)
    (hlk : (s.gs gid).lockedm = none)
    (hidle : (s.gs gid).idlem = none)
    (hover : atomic_mcpumax (s.atomic + 1) < atomic_mcpu (s.atomic + 1)) :
    ∃ t, exitsyscall s cur gid = .ok t ∧
      t.ghead = s.ghead ++ [gid] ∧
      (t.gs gid).status = .Grunnable ∧
      (t.gs gid).readyonstop = false ∧
      atomic_mcpu t.atomic = atomic_mcpu s.atomic ∧
      atomic_mcpumax t.atomic = atomic_mcpumax s.atomic := by
  have hm15 : atomic_mcpu s.atomic < 2 ^ 15 - 1 := by
    have h := hmax
    rw [maxgomaxprocs_eq] at h
    omega
  obtain ⟨hx, hi1, hi2, hi3, hi4⟩ := xadd_inc_mcpu s.atomic hwf hm15
  have hwf2 : s.atomic + 1 < 2 ^ 32 := by
    rw [atomic_mcpu_eq] at hm15
    omega
  have hpos2 : 0 < atomic_mcpu (s.atomic + 1) := by rw [hi1]; omega
  have hmax2 : atomic_mcpu (s.atomic + 1) ≤ maxgomaxprocs := by rw [hi1]; omega
  have hcap0 : atomic_mcpumax s.atomic ≤ atomic_mcpu s.atomic := by
    rw [hi1, hi2] at hover
    omega
  have heq := scheduleStep_eq
    (setG { s with atomic := s.atomic + 1 } gid { s.gs gid with readyonstop := true })
    cur gid hpre hwf2 hpos2 hmax2
  have hmidgs : ((stepMid (setG { s with atomic := s.atomic + 1 } gid
      { s.gs gid with readyonstop := true }) gid).gs gid) =
      { s.gs gid with m := none, readyonstop := true } := by
    simp [stepMid, setG]
  obtain ⟨t, hrl, q1, q2, q3, q4, q5⟩ :=
    readylocked_queue
      (setG (stepMid (setG { s with atomic := s.atomic + 1 } gid
          { s.gs gid with readyonstop := true }) gid) gid
        { (stepMid (setG { s with atomic := s.atomic + 1 } gid
            { s.gs gid with readyonstop := true }) gid).gs gid with readyonstop := false })
      cur gid
      (by simp [setG, stepMid])
      (by simp [setG, stepMid, hst])
      (by simp [setG, stepMid, hst])
      (by simp [setG, stepMid, hlk])
      (by simp [setG, stepMid, hidle])
      hpre hwf hcap0
  refine ⟨t, ?_, q1, q2, ?_, q4, q5⟩
  · rw [exitsyscall_eq s cur gid hpre hwf hm15]
    rw [if_neg (by rintro ⟨-, h2⟩; omega)]
    rw [heq]
    rw [sss_fallthrough _ cur gid (Or.inl (by rw [hmidgs]; exact hst))]
    show Except.bind (Except.ok (false, stepMid (setG { s with atomic := s.atomic + 1 } gid
      { s.gs gid with readyonstop := true }) gid)) _ = Except.ok t
    dsimp only [Except.bind]
    rw [if_neg Bool.false_ne_true]
    rw [show ((stepMid (setG { s with atomic := s.atomic + 1 } gid
        { s.gs gid with readyonstop := true }) gid).gs gid).readyonstop = true from by
      rw [hmidgs]]
    rw [if_pos rfl]
    exact hrl
  · rw [q3]
    simp [setG]

/-- The re-dispatch path of `exitsyscall`: profiler rates differ but the
post-increment mcpu is within the cap.  The task still marks itself
ready-on-stop and yields; `schedule` decrements mcpu back, re-enqueues the
task as runnable on the FIFO tail (state `q`), and the trailing `matchmg`
runs the dispatcher loop to completion from `q` — since mcpu is now below
mcpumax it immediately starts re-dispatching from the queue, and the call
ends with the queue drained or the cap reached, statuses untouched past
`q`, mcpu within the unchanged mcpumax. -/
theorem exitsyscall_redispatch (s : Sched) (cur gid : Nat)
    (hpre : s.predawn = false)
    (hwf : s.atomic < 2 ^ 32)
    (hmax : atomic_mcpu s.atomic < maxgomaxprocs)
    (hst : (s.gs gid).status = .Gsyscall)
    (hlk : (s.gs gid).lockedm = none)
    (hidle : (s.gs gid).idlem = none)
    (hma : (s.ms cur).mallocing = false)
    (hgci : (s.ms cur).gcing = false)
    (hpf : (s.ms cur).profilehz ≠ s.profilehz)
    (hcap : atomic_mcpu (s.atomic + 1) ≤ atomic_mcpumax (s.atomic + 1)) :
    ∃ q t, exitsyscall s cur gid = .ok t ∧
      q.ghead = s.ghead ++ [gid] ∧
      (q.gs gid).status = .Grunnable ∧
      (q.gs gid).readyonstop = false ∧
      atomic_mcpu q.atomic = atomic_mcpu s.atomic ∧
      atomic_mcpumax q.atomic = atomic_mcpumax s.atomic ∧
      matchmg q cur = .ok t ∧
      t.gs = q.gs ∧
      atomic_mcpumax t.atomic = atomic_mcpumax s.atomic ∧
      atomic_mcpu t.atomic ≤ atomic_mcpumax s.atomic ∧
      ¬(haveg t cur = true ∧ atomic_mcpu t.atomic < atomic_mcpumax t.atomic) := by
  have hm15 : atomic_mcpu s.atomic < 2 ^ 15 - 1 := by
    have h := hmax
    rw [maxgomaxprocs_eq] at h
    omega
  obtain ⟨hx, hi1, hi2, hi3, hi4⟩ := xadd_inc_mcpu s.atomic hwf hm15
  have hwf2 : s.atomic + 1 < 2 ^ 32 := by
    rw [atomic_mcpu_eq] at hm15
    omega
  have hpos2 : 0 < atomic_mcpu (s.atomic + 1) := by rw [hi1]; omega
  have hmax2 : atomic_mcpu (s.atomic + 1) ≤ maxgomaxprocs := by rw [hi1]; omega
  have hcap' : atomic_mcpu s.atomic < atomic_mcpumax s.atomic := by
    rw [hi1, hi2] at hcap
    omega
  have heq := scheduleStep_eq
    (setG { s with atomic := s.atomic + 1 } gid { s.gs gid with readyonstop := true })
    cur gid hpre hwf2 hpos2 hmax2
  have hmidgs : ((stepMid (setG { s with atomic := s.atomic + 1 } gid
      { s.gs gid with readyonstop := true }) gid).gs gid) =
      { s.gs gid with m := none, readyonstop := true } := by
    simp [stepMid, setG]
  obtain ⟨q, hrl, hq1, hq2, hq3, hq4, hq5, hq6, hq7, hq8⟩ :=
    readylocked_run
      (setG (stepMid (setG { s with atomic := s.atomic + 1 } gid
          { s.gs gid with readyonstop := true }) gid) gid
        { (stepMid (setG { s with atomic := s.atomic + 1 } gid
            { s.gs gid with readyonstop := true }) gid).gs gid with readyonstop := false })
      cur gid
      (by simp [setG, stepMid])
      (by simp [setG, stepMid, hst])
      (by simp [setG, stepMid, hst])
      (by simp [setG, stepMid, hlk])
      (by simp [setG, stepMid, hidle])
      hpre hwf
  obtain ⟨t, hmm, htwf, htmax, -, htcpu, -, -, htgs, -, hdrain⟩ :=
    matchmg_props q cur hq7
      (by rw [hq8]; exact hma)
      (by rw [hq8]; exact hgci)
  have hle : atomic_mcpu q.atomic ≤ atomic_mcpumax q.atomic := by
    rw [hq5, hq6]
    exact le_of_lt hcap'
  refine ⟨q, t, ?_, hq1, hq3, ?_, hq5, hq6, hmm, htgs, htmax.trans hq6, ?_, hdrain⟩
  · rw [exitsyscall_eq s cur gid hpre hwf hm15]
    rw [if_neg (by rintro ⟨h1, -⟩; exact hpf h1)]
    rw [heq]
    rw [sss_fallthrough _ cur gid (Or.inl (by rw [hmidgs]; exact hst))]
    show Except.bind (Except.ok (false, stepMid (setG { s with atomic := s.atomic + 1 } gid
      { s.gs gid with readyonstop := true }) gid)) _ = Except.ok t
    dsimp only [Except.bind]
    rw [if_neg Bool.false_ne_true]
    rw [show ((stepMid (setG { s with atomic := s.atomic + 1 } gid
        { s.gs gid with readyonstop := true }) gid).gs gid).readyonstop = true from by
      rw [hmidgs]]
    rw [if_pos rfl]
    rw [hrl]
    exact hmm
  · rw [hq4]
    simp [setG]
  · exact le_of_le_of_eq (htcpu hle) hq6

/-- C3: outside predawn, `exitsyscall` performs one atomic add that
increments exactly the mcpu field of the scheduler word; when the worker's
profiler rate equals the scheduler's and the post-increment mcpu is within
mcpumax, it returns at once with only the task status (now running) and the
word changed, taking no lock.  Otherwise the task sets its ready-on-stop
flag and yields into `schedule`, which re-enqueues it as runnable on the
run-queue tail, clears the flag again, and decrements mcpu exactly once on
its behalf, in both slow sub-cases: when the increment overshot the cap,
the dispatcher loop is a no-op and the call ends right there (the task is
left queued and the final mcpu equals the pre-call value, one below the
post-increment value, with mcpumax unchanged); when only the profiler rates
differ and a slot is free, the same re-enqueue and single decrement happen
(intermediate state `q`), and the call then continues as exactly the
`matchmg` dispatcher loop from `q`, which immediately re-dispatches from
the queue until it is drained or the cap is reached, with mcpumax still
unchanged and mcpu within it. -/
theorem exitsyscall_spec (s : Sched) (cur gid : Nat)
    (hpre : s.predawn = false)
    (hwf : s.atomic < 2 ^ 32)
    (hmax : atomic_mcpu s.atomic < maxgomaxprocs)
    (hst : (s.gs gid).status = .Gsyscall)
    (hlk : (s.gs gid).lockedm = none)
    (hidle : (s.gs gid).idlem = none) :
    xadd s.atomic ((1 <<< mcpuShift : Nat) : Int) = s.atomic + 1 ∧
    atomic_mcpu (s.atomic + 1) = atomic_mcpu s.atomic + 1 ∧
    atomic_mcpumax (s.atomic + 1) = atomic_mcpumax s.atomic ∧
    atomic_waitstop (s.atomic + 1) = atomic_waitstop s.atomic ∧
    atomic_gwaiting (s.atomic + 1) = atomic_gwaiting s.atomic ∧
    ((s.ms cur).profilehz = s.profilehz ∧
        atomic_mcpu (s.atomic + 1) ≤ atomic_mcpumax (s.atomic + 1) →
      exitsyscall s cur gid =
        .ok (setG { s with atomic := s.atomic + 1 } gid
          { s.gs gid with status := .Grunning })) ∧
    (atomic_mcpumax (s.atomic + 1) < atomic_mcpu (s.atomic + 1) →
      ∃ t, exitsyscall s cur gid = .ok t ∧
        t.ghead = s.ghead ++ [gid] ∧
        (t.gs gid).status = .Grunnable ∧
        (t.gs gid).readyonstop = false ∧
        atomic_mcpu t.atomic = atomic_mcpu s.atomic ∧
        atomic_mcpumax t.atomic = atomic_mcpumax s.atomic) ∧
    ((s.ms cur).mallocing = false ∧ (s.ms cur).gcing = false ∧
        (s.ms cur).profilehz ≠ s.profilehz ∧
        atomic_mcpu (s.atomic + 1) ≤ atomic_mcpumax (s.atomic + 1) →
      ∃ q t, exitsyscall s cur gid = .ok t ∧
        q.ghead = s.ghead ++ [gid] ∧
        (q.gs gid).status = .Grunnable ∧
        (q.gs gid).readyonstop = false ∧
        atomic_mcpu q.atomic = atomic_mcpu s.atomic ∧
        atomic_mcpumax q.atomic = atomic_mcpumax s.atomic ∧
        matchmg q cur = .ok t ∧
        t.gs = q.gs ∧
        atomic_mcpumax t.atomic = atomic_mcpumax s.atomic ∧
        atomic_mcpu t.atomic ≤ atomic_mcpumax s.atomic ∧
        ¬(haveg t cur = true ∧ atomic_mcpu t.atomic < atomic_mcpumax t.atomic)) := by
  have hm15 : atomic_mcpu s.atomic < 2 ^ 15 - 1 := by
    have h := hmax
    rw [maxgomaxprocs_eq] at h
    omega
  obtain ⟨hx, hi1, hi2, hi3, hi4⟩ := xadd_inc_mcpu s.atomic hwf hm15
  refine ⟨hx, hi1, hi2, hi3, hi4, ?_, ?_, ?_⟩
  · intro hfast
    rw [exitsyscall_eq s cur gid hpre hwf hm15, if_pos hfast]
  · intro hover
    exact exitsyscall_requeue s cur gid hpre hwf hmax hst hlk hidle hover
  · rintro ⟨hma, hgci, hpf, hcap⟩
    exact exitsyscall_redispatch s cur gid hpre hwf hmax hst hlk hidle hma hgci hpf hcap

/-- A state whose task 1 is in `Gsyscall` with a free cpu slot (mcpu = 1,
mcpumax = 2) but a changed profiler rate (sched.profilehz = 100 while the
worker still has 0): `exitsyscall` takes the re-dispatch slow path. -/
def schedC3 : Sched :=
  { sched0 with atomic := 65537, profilehz := 100,
                gs := fun i => if i = 1 then { g0st with status := .Gsyscall } else g0st,
                gcount := 2, grunning := 1 }

/-- Witness for C3 at two concrete states: `schedC6` (task 1 in syscall,
mcpu = mcpumax = 1, so the increment overshoots the cap and the requeue
conjunct fires) and `schedC3` (mcpu = 1 < mcpumax = 2 but profiler rates
differ, so the re-dispatch conjunct fires). -/
theorem exitsyscall_spec_witness :
    ((schedC6.predawn = false ∧ schedC6.atomic < 2 ^ 32 ∧
      atomic_mcpu schedC6.atomic < maxgomaxprocs ∧
      (schedC6.gs 1).status = Gstatus.Gsyscall ∧
      (schedC6.gs 1).lockedm = none ∧ (schedC6.gs 1).idlem = none) ∧
     (xadd schedC6.atomic ((1 <<< mcpuShift : Nat) : Int) = schedC6.atomic + 1 ∧
      atomic_mcpu (schedC6.atomic + 1) = atomic_mcpu schedC6.atomic + 1 ∧
      atomic_mcpumax (schedC6.atomic + 1) = atomic_mcpumax schedC6.atomic ∧
      atomic_waitstop (schedC6.atomic + 1) = atomic_waitstop schedC6.atomic ∧
      atomic_gwaiting (schedC6.atomic + 1) = atomic_gwaiting schedC6.atomic ∧
      ((schedC6.ms 0).profilehz = schedC6.profilehz ∧
          atomic_mcpu (schedC6.atomic + 1) ≤ atomic_mcpumax (schedC6.atomic + 1) →
        exitsyscall schedC6 0 1 =
          .ok (setG { schedC6 with atomic := schedC6.atomic + 1 } 1
            { schedC6.gs 1 with status := .Grunning })) ∧
      (atomic_mcpumax (schedC6.atomic + 1) < atomic_mcpu (schedC6.atomic + 1) →
        ∃ t, exitsyscall schedC6 0 1 = .ok t ∧
          t.ghead = schedC6.ghead ++ [1] ∧
          (t.gs 1).status = .Grunnable ∧
          (t.gs 1).readyonstop = false ∧
          atomic_mcpu t.atomic = atomic_mcpu schedC6.atomic ∧
          atomic_mcpumax t.atomic = atomic_mcpumax schedC6.atomic) ∧
      ((schedC6.ms 0).mallocing = false ∧ (schedC6.ms 0).gcing = false ∧
          (schedC6.ms 0).profilehz ≠ schedC6.profilehz ∧
          atomic_mcpu (schedC6.atomic + 1) ≤ atomic_mcpumax (schedC6.atomic + 1) →
        ∃ q t, exitsyscall schedC6 0 1 = .ok t ∧
          q.ghead = schedC6.ghead ++ [1] ∧
          (q.gs 1).status = .Grunnable ∧
          (q.gs 1).readyonstop = false ∧
          atomic_mcpu q.atomic = atomic_mcpu schedC6.atomic ∧
          atomic_mcpumax q.atomic = atomic_mcpumax schedC6.atomic ∧
          matchmg q 0 = .ok t ∧
          t.gs = q.gs ∧
          atomic_mcpumax t.atomic = atomic_mcpumax schedC6.atomic ∧
          atomic_mcpu t.atomic ≤ atomic_mcpumax schedC6.atomic ∧
          ¬(haveg t 0 = true ∧ atomic_mcpu t.atomic < atomic_mcpumax t.atomic)))) ∧
    ((schedC3.predawn = false ∧ schedC3.atomic < 2 ^ 32 ∧
      atomic_mcpu schedC3.atomic < maxgomaxprocs ∧
      (schedC3.gs 1).status = Gstatus.Gsyscall ∧
      (schedC3.gs 1).lockedm = none ∧ (schedC3.gs 1).idlem = none ∧
      (schedC3.ms 0).mallocing = false ∧ (schedC3.ms 0).gcing = false ∧
      (schedC3.ms 0).profilehz ≠ schedC3.profilehz ∧
      atomic_mcpu (schedC3.atomic + 1) ≤ atomic_mcpumax (schedC3.atomic + 1)) ∧
     (xadd schedC3.atomic ((1 <<< mcpuShift : Nat) : Int) = schedC3.atomic + 1 ∧
      atomic_mcpu (schedC3.atomic + 1) = atomic_mcpu schedC3.atomic + 1 ∧
      atomic_mcpumax (schedC3.atomic + 1) = atomic_mcpumax schedC3.atomic ∧
      atomic_waitstop (schedC3.atomic + 1) = atomic_waitstop schedC3.atomic ∧
      atomic_gwaiting (schedC3.atomic + 1) = atomic_gwaiting schedC3.atomic ∧
      ((schedC3.ms 0).profilehz = schedC3.profilehz ∧
          atomic_mcpu (schedC3.atomic + 1) ≤ atomic_mcpumax (schedC3.atomic + 1) →
        exitsyscall schedC3 0 1 =
          .ok (setG { schedC3 with atomic := schedC3.atomic + 1 } 1
            { schedC3.gs 1 with status := .Grunning })) ∧
      (atomic_mcpumax (schedC3.atomic + 1) < atomic_mcpu (schedC3.atomic + 1) →
        ∃ t, exitsyscall schedC3 0 1 = .ok t ∧
          t.ghead = schedC3.ghead ++ [1] ∧
          (t.gs 1).status = .Grunnable ∧
          (t.gs 1).readyonstop = false ∧
          atomic_mcpu t.atomic = atomic_mcpu schedC3.atomic ∧
          atomic_mcpumax t.atomic = atomic_mcpumax schedC3.atomic) ∧
      ((schedC3.ms 0).mallocing = false ∧ (schedC3.ms 0).gcing = false ∧
          (schedC3.ms 0).profilehz ≠ schedC3.profilehz ∧
          atomic_mcpu (schedC3.atomic + 1) ≤ atomic_mcpumax (schedC3.atomic + 1) →
        ∃ q t, exitsyscall schedC3 0 1 = .ok t ∧
          q.ghead = schedC3.ghead ++ [1] ∧
          (q.gs 1).status = .Grunnable ∧
          (q.gs 1).readyonstop = false ∧
          atomic_mcpu q.atomic = atomic_mcpu schedC3.atomic ∧
          atomic_mcpumax q.atomic = atomic_mcpumax schedC3.atomic ∧
          matchmg q 0 = .ok t ∧
          t.gs = q.gs ∧
          atomic_mcpumax t.atomic = atomic_mcpumax schedC3.atomic ∧
          atomic_mcpu t.atomic ≤ atomic_mcpumax schedC3.atomic ∧
          ¬(haveg t 0 = true ∧ atomic_mcpu t.atomic < atomic_mcpumax t.atomic)))) :=
  ⟨⟨⟨rfl, by decide, by decide, by decide, by decide, by decide⟩,
    exitsyscall_spec schedC6 0 1 rfl (by decide) (by decide) (by decide) (by decide)
      (by decide)⟩,
   ⟨⟨rfl, by decide, by decide, by decide, by decide, by decide, by decide, by decide,
     by decide, by decide⟩,
    exitsyscall_spec schedC3 0 1 rfl (by decide) (by decide) (by decide) (by decide)
      (by decide)⟩⟩

/-! ### `gomaxprocsfunc` as a query (C9) -/

/-- `schedule` on a running prev task requeues it: the task goes back on the
FIFO tail and the only change to the atomic word is the mcpu decrement
(plus possibly the gwaiting bit set by `gput`). -/
theorem scheduleStep_requeue_running (s : Sched) (cur gid : Nat)
    (hpre : s.predawn = false) (hwf : s.atomic < 2 ^ 32)
    (hpos : 0 < atomic_mcpu s.atomic) (hmax : atomic_mcpu s.atomic ≤ maxgomaxprocs)
    (hst : (s.gs gid).status = .Grunning)
    (hlk : (s.gs gid).lockedm = none) (hidle : (s.gs gid).idlem = none)
    (hros : (s.gs gid).readyonstop = false) :
    ∃ t, scheduleStep s cur gid = .ok t ∧
      t.gomaxprocs = s.gomaxprocs ∧
      (t.atomic = s.atomic - 1 ∨
        t.atomic = xadd (s.atomic - 1) ((1 <<< gwaitingShift : Nat) : Int)) := by
  have heq := scheduleStep_eq s cur gid hpre hwf hpos hmax
  have hmid_gs : (stepMid s gid).gs gid = { s.gs gid with m := none } := by
    simp [stepMid]
  obtain ⟨t, hput, ht1, ht2, -, -, -, -, -, hg8, -, -, ht11⟩ :=
    gput_append (setG (stepMid s gid) gid { (stepMid s gid).gs gid with status := .Grunnable })
      gid (by simp [setG, hmid_gs, hlk]) (by simp [setG, hmid_gs, hidle])
  rw [heq, sss_running (stepMid s gid) cur gid t (by rw [hmid_gs]; exact hst) hput]
  have hros' : (t.gs gid).readyonstop = false := by
    rw [ht2]
    simp [setG, hmid_gs, hros]
  refine ⟨t, ?_, ?_, ?_⟩
  · show Except.bind (Except.ok (false, t)) _ = Except.ok t
    dsimp only [Except.bind]
    rw [if_neg Bool.false_ne_true, hros', if_neg Bool.false_ne_true]
  · rw [hg8]
    rfl
  · exact ht11

/-- The `runtime·gosched` tail of `gomaxprocsfunc`: unlock, yield, and have
`schedule` requeue the (running) caller; gomaxprocs is untouched and the
atomic word keeps its mcpumax field. -/
theorem gomaxprocs_gosched (W : Sched) (cur gid : Nat) (r : Int)
    (hpre : W.predawn = false) (hwf : W.atomic < 2 ^ 32)
    (hpos : 0 < atomic_mcpu W.atomic) (hmax : atomic_mcpu W.atomic ≤ maxgomaxprocs)
    (hst : (W.gs gid).status = .Grunning)
    (hlk : (W.gs gid).lockedm = none) (hidle : (W.gs gid).idlem = none)
    (hros : (W.gs gid).readyonstop = false) :
    ∃ t, (do let x ← scheduleStep (schedunlock W) cur gid
             Except.ok (r, x)) = Except.ok (r, t) ∧
      t.gomaxprocs = W.gomaxprocs ∧
      atomic_mcpumax t.atomic = atomic_mcpumax W.atomic := by
  obtain ⟨ext, hu1, hu2, hu3, hu4, hu5, hu6, hu7, hu8⟩ := schedunlock_frame W
  obtain ⟨t, hstep, htg, hta⟩ :=
    scheduleStep_requeue_running (schedunlock W) cur gid
      (by rw [hu8]; exact hpre) (by rw [hu3]; exact hwf)
      (by rw [hu3]; exact hpos) (by rw [hu3]; exact hmax)
      (by rw [hu2]; exact hst) (by rw [hu2]; exact hlk)
      (by rw [hu2]; exact hidle) (by rw [hu2]; exact hros)
  have hwfu : (schedunlock W).atomic < 2 ^ 32 := by rw [hu3]; exact hwf
  have hposu : 0 < atomic_mcpu (schedunlock W).atomic := by rw [hu3]; exact hpos
  refine ⟨t, ?_, htg.trans hu7, ?_⟩
  · rw [hstep]
    rfl
  · rcases hta with h | h
    · obtain ⟨-, -, hdx, -, -⟩ := xadd_dec_mcpu (schedunlock W).atomic hwfu hposu
      rw [h, hdx, hu3]
    · obtain ⟨-, hbx, -⟩ :=
        xadd_top_bit_fields ((schedunlock W).atomic - 1) _ (by omega) (Or.inl rfl)
      obtain ⟨-, -, hdx, -, -⟩ := xadd_dec_mcpu (schedunlock W).atomic hwfu hposu
      rw [h, hbx, hdx, hu3]

/-- The cap-raising tail of `gomaxprocsfunc`: run `matchmg` to completion and
unlock; gomaxprocs and the mcpumax field survive. -/
theorem gomaxprocs_match (W : Sched) (cur : Nat) (r : Int)
    (hwf : W.atomic < 2 ^ 32)
    (hma : (W.ms cur).mallocing = false) (hgci : (W.ms cur).gcing = false) :
    ∃ t, (do let x ← matchmg W cur
             Except.ok (r, schedunlock x)) = Except.ok (r, t) ∧
      t.gomaxprocs = W.gomaxprocs ∧
      atomic_mcpumax t.atomic = atomic_mcpumax W.atomic := by
  obtain ⟨x, hmm, -, hmx, -, -, hgp, -, -, -, -⟩ := matchmg_props W cur hwf hma hgci
  obtain ⟨ext, -, -, hua, -, -, -, hug, -⟩ := schedunlock_frame x
  refine ⟨schedunlock x, ?_, ?_, ?_⟩
  · rw [hmm]
    rfl
  · rw [hug, hgp]
  · rw [hua, hmx]

/-- C9: with any argument `n ≤ 0` and no GC pending, `gomaxprocsfunc` is a
pure query with respect to the cap: it returns the current gomaxprocs value,
the stored gomaxprocs is unchanged, and the mcpumax field of the atomic word
is rewritten to its old value, so it is unchanged as well — on both the
plain path and the path that has to yield because mcpu currently exceeds the
(unchanged) cap. -/
theorem gomaxprocsfunc_spec (s : Sched) (cur gid : Nat) (n : Int)
    (hn : n ≤ 0)
    (hgc : s.gcwaiting = false)
    (hpre : s.predawn = false)
    (hwf : s.atomic < 2 ^ 32)
    (hg1 : 1 ≤ s.gomaxprocs)
    (hg2 : s.gomaxprocs ≤ (maxgomaxprocs : Int))
    (hinv : atomic_mcpumax s.atomic = u32 s.gomaxprocs)
    (hmcpu : atomic_mcpu s.atomic ≤ maxgomaxprocs)
    (hst : (s.gs gid).status = .Grunning)
    (hlk : (s.gs gid).lockedm = none)
    (hidle : (s.gs gid).idlem = none)
    (hros : (s.gs gid).readyonstop = false)
    (hma : (s.ms cur).mallocing = false)
    (hgci : (s.ms cur).gcing = false) :
    ∃ t, gomaxprocsfunc s cur gid n = .ok (s.gomaxprocs, t) ∧
      t.gomaxprocs = s.gomaxprocs ∧
      atomic_mcpumax t.atomic = atomic_mcpumax s.atomic := by
  have hg2' : ¬ s.gomaxprocs > (maxgomaxprocs : Int) := not_lt.mpr hg2
  have hsmall : u32 s.gomaxprocs < 2 ^ 15 ∧ 1 ≤ u32 s.gomaxprocs := by
    have h1 := hg1
    have h2 := hg2
    rw [maxgomaxprocs_eq] at h2
    unfold u32
    constructor
    · omega
    · omega
  obtain ⟨hs1, hs2, hs3, hs4, hs5⟩ :=
    setmcpumax_small s.atomic (u32 s.gomaxprocs) hwf hsmall.1
  unfold gomaxprocsfunc
  dsimp only [schedlock, emit]
  rw [if_pos hn]
  rw [if_neg hg2']
  by_cases hsp : s.gomaxprocs > (1 : Int)
  · rw [if_pos hsp]
    dsimp only
    rw [hgc, if_neg Bool.false_ne_true]
    rw [hs1]
    by_cases hlt : u32 s.gomaxprocs < atomic_mcpu s.atomic
    · rw [if_pos hlt]
      obtain ⟨t, heqq, h1, h2⟩ := gomaxprocs_gosched
        { s with lockHeld := true, log := s.log ++ [Event.lockSched],
                 gomaxprocs := s.gomaxprocs, singleproc := false, gcwaiting := false,
                 atomic := setmcpumax s.atomic (u32 s.gomaxprocs) }
        cur gid s.gomaxprocs hpre hs5
        (by show 0 < atomic_mcpu (setmcpumax s.atomic (u32 s.gomaxprocs)); rw [hs1]; omega)
        (by show atomic_mcpu (setmcpumax s.atomic (u32 s.gomaxprocs)) ≤ maxgomaxprocs
            rw [hs1]; exact hmcpu)
        hst hlk hidle hros
      exact ⟨t, heqq, h1, h2.trans (hs2.trans hinv.symm)⟩
    · rw [if_neg hlt]
      obtain ⟨t, heqq, h1, h2⟩ := gomaxprocs_match
        { s with lockHeld := true, log := s.log ++ [Event.lockSched],
                 gomaxprocs := s.gomaxprocs, singleproc := false, gcwaiting := false,
                 atomic := setmcpumax s.atomic (u32 s.gomaxprocs) }
        cur s.gomaxprocs hs5 hma hgci
      exact ⟨t, heqq, h1, h2.trans (hs2.trans hinv.symm)⟩
  · rw [if_neg hsp]
    dsimp only
    rw [hgc, if_neg Bool.false_ne_true]
    rw [hs1]
    by_cases hlt : u32 s.gomaxprocs < atomic_mcpu s.atomic
    · rw [if_pos hlt]
      obtain ⟨t, heqq, h1, h2⟩ := gomaxprocs_gosched
        { s with lockHeld := true, log := s.log ++ [Event.lockSched],
                 gomaxprocs := s.gomaxprocs, gcwaiting := false,
                 atomic := setmcpumax s.atomic (u32 s.gomaxprocs) }
        cur gid s.gomaxprocs hpre hs5
        (by show 0 < atomic_mcpu (setmcpumax s.atomic (u32 s.gomaxprocs)); rw [hs1]; omega)
        (by show atomic_mcpu (setmcpumax s.atomic (u32 s.gomaxprocs)) ≤ maxgomaxprocs
            rw [hs1]; exact hmcpu)
        hst hlk hidle hros
      exact ⟨t, heqq, h1, h2.trans (hs2.trans hinv.symm)⟩
    · rw [if_neg hlt]
      obtain ⟨t, heqq, h1, h2⟩ := gomaxprocs_match
        { s with lockHeld := true, log := s.log ++ [Event.lockSched],
                 gomaxprocs := s.gomaxprocs, gcwaiting := false,
                 atomic := setmcpumax s.atomic (u32 s.gomaxprocs) }
        cur s.gomaxprocs hs5 hma hgci
      exact ⟨t, heqq, h1, h2.trans (hs2.trans hinv.symm)⟩

/-- A state whose task 1 is running (mcpu = 1, mcpumax = 1 = gomaxprocs). -/
def schedC9 : Sched :=
  { sched0 with atomic := 32769,
                gs := fun i => if i = 1 then { g0st with status := .Grunning } else g0st,
                gcount := 1, grunning := 1 }

/-- Witness for C9 at the concrete state `schedC9` with argument `n = 0`. -/
theorem gomaxprocsfunc_spec_witness :
    ((0 : Int) ≤ 0 ∧ schedC9.gcwaiting = false ∧ schedC9.predawn = false ∧
     schedC9.atomic < 2 ^ 32 ∧ 1 ≤ schedC9.gomaxprocs ∧
     schedC9.gomaxprocs ≤ (maxgomaxprocs : Int) ∧
     atomic_mcpumax schedC9.atomic = u32 schedC9.gomaxprocs ∧
     atomic_mcpu schedC9.atomic ≤ maxgomaxprocs ∧
     (schedC9.gs 1).status = Gstatus.Grunning ∧
     (schedC9.gs 1).lockedm = none ∧ (schedC9.gs 1).idlem = none ∧
     (schedC9.gs 1).readyonstop = false ∧
     (schedC9.ms 0).mallocing = false ∧ (schedC9.ms 0).gcing = false) ∧
    (∃ t, gomaxprocsfunc schedC9 0 1 0 = .ok (schedC9.gomaxprocs, t) ∧
      t.gomaxprocs = schedC9.gomaxprocs ∧
      atomic_mcpumax t.atomic = atomic_mcpumax schedC9.atomic) :=
  ⟨⟨by decide, rfl, rfl, by decide, by decide, by decide, by decide, by decide,
    by decide, by decide, by decide, by decide, by decide, by decide⟩,
   gomaxprocsfunc_spec schedC9 0 1 0 (by decide) rfl rfl (by decide) (by decide)
     (by decide) (by decide) (by decide) (by decide) (by decide) (by decide)
     (by decide) (by decide) (by decide)⟩

end Proc
